import Mathlib

/-!
Verification of `src/imap_aex.py` (IMAP attachment extractor).

Python strings are modelled as lists of Unicode code points (`List Nat`),
byte strings as `List Nat` with values below 256.  Fallible Python code
(raising exceptions) is modelled with `Option`/`Except`.
-/

set_option maxHeartbeats 1000000
set_option maxRecDepth 100000

namespace ImapAex

/-- Python exceptions that the modelled code can raise. -/
inductive PyErr where
  | runtimeWarning
  | valueError
  | typeError
  | indexError
  | keyError
  /-- reading a local variable that was never assigned (UnboundLocalError). -/
  | nameError
  | binasciiError
  | illegalMonth
  deriving DecidableEq, Repr

deriving instance DecidableEq for Except

/-! ## Base64 (Python `base64.b64encode` / `b64decode`) -/

/-- Standard base64 alphabet: index (0..63) to character code
(`A`-`Z`, `a`-`z`, `0`-`9`, `+`, `/`). -/
def b64alpha (i : Nat) : Nat :=
  if i < 26 then 65 + i
  else if i < 52 then 97 + (i - 26)
  else if i < 62 then 48 + (i - 52)
  else if i = 62 then 43 else 47

/-- Inverse of the standard alphabet. -/
def b64indexStd (c : Nat) : Option Nat :=
  if 65 ≤ c ∧ c ≤ 90 then some (c - 65)
  else if 97 ≤ c ∧ c ≤ 122 then some (26 + (c - 97))
  else if 48 ≤ c ∧ c ≤ 57 then some (52 + (c - 48))
  else if c = 43 then some 62
  else if c = 47 then some 63
  else none

/-- Alphabet inverse for `b64decode(..., altchars='+,')`: `,` (44) also
denotes 63 (the altchars translation maps it to `/` before decoding,
and `/` itself stays valid). -/
def b64indexAlt (c : Nat) : Option Nat :=
  if c = 44 then some 63 else b64indexStd c

/-- Python `base64.b64encode`: 3-byte groups to 4 characters, `=`-padded
(61 is the code of `=`). -/
def b64encodeP : List Nat → List Nat
  | [] => []
  | [a] => [b64alpha (a / 4), b64alpha (a % 4 * 16), 61, 61]
  | [a, b] => [b64alpha (a / 4), b64alpha (a % 4 * 16 + b / 16), b64alpha (b % 16 * 4), 61]
  | a :: b :: c :: rest =>
      b64alpha (a / 4) :: b64alpha (a % 4 * 16 + b / 16) ::
      b64alpha (b % 16 * 4 + c / 64) :: b64alpha (c % 64) :: b64encodeP rest

/-- Base64 decoding of a fully padded string: groups of four characters,
`=` allowed only as final padding (at most two).  Parameterised by the
alphabet inverse (`b64indexStd`, or `b64indexAlt` for `altchars='+,'`).
Returns `none` exactly where Python's strict decode raises `binascii.Error`. -/
def b64decodeGroups (idx : Nat → Option Nat) : List Nat → Option (List Nat)
  | [] => some []
  | c1 :: c2 :: c3 :: c4 :: rest =>
    match idx c1, idx c2 with
    | some v1, some v2 =>
      if c3 = 61 then
        if c4 = 61 ∧ rest = [] then some [v1 * 4 + v2 / 16] else none
      else
        match idx c3 with
        | some v3 =>
          if c4 = 61 then
            if rest = [] then some [v1 * 4 + v2 / 16, v2 % 16 * 16 + v3 / 4] else none
          else
            match idx c4, b64decodeGroups idx rest with
            | some v4, some tl =>
                some ((v1 * 4 + v2 / 16) :: (v2 % 16 * 16 + v3 / 4) :: (v3 % 4 * 64 + v4) :: tl)
            | _, _ => none
        | none => none
    | _, _ => none
  | _ => none

/-- Python `.rstrip('=')`: remove every trailing `=` (61). -/
def rstripEq (xs : List Nat) : List Nat := (xs.reverse.dropWhile (fun c => c == 61)).reverse

/-- `b += (-len(b) % 4) * '='` : restore base64 padding. -/
def padEq (xs : List Nat) : List Nat := xs ++ List.replicate ((4 - xs.length % 4) % 4) 61

/-! ## UTF-16 big endian (Python `str.encode('utf-16-be')` / `bytes.decode('utf-16-be')`) -/

/-- UTF-16-BE encoding of one Unicode scalar value. -/
def utf16beEncodeChar (c : Nat) : List Nat :=
  if c < 0x10000 then [c / 256, c % 256]
  else
    let v := c - 0x10000
    let hi := 0xD800 + v / 0x400
    let lo := 0xDC00 + v % 0x400
    [hi / 256, hi % 256, lo / 256, lo % 256]

/-- UTF-16-BE encoding of a string (list of code points). -/
def utf16beEncode : List Nat → List Nat
  | [] => []
  | c :: rest => utf16beEncodeChar c ++ utf16beEncode rest

/-- Strict UTF-16-BE decoding of a byte string; `none` where Python raises
`UnicodeDecodeError` (odd length, lone or misordered surrogate). -/
def utf16beDecode : List Nat → Option (List Nat)
  | [] => some []
  | [_] => none
  | b1 :: b2 :: rest =>
      if b1 * 256 + b2 < 0xD800 ∨ 0xE000 ≤ b1 * 256 + b2 then
        (utf16beDecode rest).map (fun l => (b1 * 256 + b2) :: l)
      else if b1 * 256 + b2 < 0xDC00 then
        match rest with
        | b3 :: b4 :: rest2 =>
            if 0xDC00 ≤ b3 * 256 + b4 ∧ b3 * 256 + b4 < 0xE000 then
              (utf16beDecode rest2).map
                (fun l =>
                  (0x10000 + (b1 * 256 + b2 - 0xD800) * 0x400 + (b3 * 256 + b4 - 0xDC00)) :: l)
            else none
        | _ => none
      else none

/-! ## Modified UTF-7 (source `imaputf7encode` / `imaputf7decode`, lines 719-755) -/

/-- Source `b64padanddecode`: re-pad, base64-decode with `altchars='+,'`
and `validate=True`, then decode as UTF-16-BE. -/
def b64padanddecode (b : List Nat) : Option (List Nat) :=
  (b64decodeGroups b64indexAlt (padEq b)).bind utf16beDecode

/-- Python `s.split('&')` (38 is `&`).  Always returns a non-empty list. -/
def splitOnAmp : List Nat → List (List Nat)
  | [] => [[]]
  | c :: rest =>
      if c = 38 then [] :: splitOnAmp rest
      else
        match splitOnAmp rest with
        | h :: t => (c :: h) :: t
        | [] => [[c]]

/-- Python `e.split('-', 1)` followed by unpacking into two variables:
`none` (ValueError) when `e` contains no `-` (45). -/
def splitDash1 : List Nat → Option (List Nat × List Nat)
  | [] => none
  | c :: rest =>
      if c = 45 then some ([], rest)
      else (splitDash1 rest).map (fun p => (c :: p.1, p.2))

/-- The loop `for e in lst[1:]` of `imaputf7decode`. -/
def decodeLoop : List (List Nat) → Option (List Nat)
  | [] => some []
  | e :: rest =>
    match splitDash1 e with
    | none => none
    | some (u, a) =>
      match (if u = [] then some [38] else b64padanddecode u), decodeLoop rest with
      | some piece, some tl => some (piece ++ a ++ tl)
      | _, _ => none

/-- Source `imaputf7decode` (line 725). -/
def imaputf7decode (s : List Nat) : Option (List Nat) :=
  match splitOnAmp s with
  | [] => none
  | h :: t => (decodeLoop t).map (fun r => h ++ r)

/-- `0x20 <= ord(c) <= 0x7f` (source line 746). -/
def printableAscii (c : Nat) : Bool := decide (0x20 ≤ c ∧ c ≤ 0x7f)

/-- `s.replace('&', '&-')` (source line 743). -/
def replaceAmp : List Nat → List Nat
  | [] => []
  | c :: rest => if c = 38 then 38 :: 45 :: replaceAmp rest else c :: replaceAmp rest

/-- `'&' + b64encode(unipart.encode('utf-16-be')).decode('ascii').rstrip('=') + '-'`. -/
def encBlock (uni : List Nat) : List Nat :=
  38 :: (rstripEq (b64encodeP (utf16beEncode uni)) ++ [45])

/-- One iteration of the `for c in s` loop of `imaputf7encode`; the state is
the pair `(unipart, out)`. -/
def encStep (acc : List Nat × List Nat) (c : Nat) : List Nat × List Nat :=
  if printableAscii c then
    if acc.1 ≠ [] then ([], acc.2 ++ encBlock acc.1 ++ [c])
    else ([], acc.2 ++ [c])
  else (acc.1 ++ [c], acc.2)

/-- Source `imaputf7encode` (line 741). -/
def imaputf7encode (s : List Nat) : List Nat :=
  let s2 := replaceAmp s
  let acc := s2.foldl encStep ([], [])
  if acc.1 ≠ [] then acc.2 ++ encBlock acc.1 else acc.2

/-- A Unicode scalar value (what a Python `str` character is, surrogates
excluded as in the claim's "printable ASCII plus arbitrary Unicode"). -/
def ValidScalar (c : Nat) : Prop := c < 0xD800 ∨ (0xE000 ≤ c ∧ c < 0x110000)

/-! ## Dates and `parse_date` (source lines 186-273) -/

/-- Code points of a Lean string literal (to write Python strings readably). -/
def strCodes (s : String) : List Nat := s.toList.map Char.toNat

/-- Gregorian leap year (Python `calendar.isleap`). -/
def isleap (y : Nat) : Bool := y % 4 = 0 ∧ (y % 100 ≠ 0 ∨ y % 400 = 0)

/-- Days in a month: the second component of `calendar.monthrange`. -/
def daysInMonth (y m : Nat) : Nat :=
  if m = 2 then (if isleap y then 29 else 28)
  else if m = 4 ∨ m = 6 ∨ m = 9 ∨ m = 11 then 30
  else 31

/-- Days in all years before proleptic-Gregorian year `y`. -/
def daysBeforeYear (y : Nat) : Nat :=
  365 * (y - 1) + (y - 1) / 4 - (y - 1) / 100 + (y - 1) / 400

/-- Days in the months of year `y` before month `m`. -/
def daysBeforeMonth (y m : Nat) : Nat :=
  (List.range (m - 1)).foldl (fun acc i => acc + daysInMonth y (i + 1)) 0

/-- Weekday (Monday = 0) of the first day of a month: the first component of
`calendar.monthrange` (year 1, January 1st was a Monday). -/
def firstWeekday (y m : Nat) : Nat := (daysBeforeYear y + daysBeforeMonth y m) % 7

/-- `calendar.monthrange(y, m)`: a 2-tuple, modelled as a list so that the
source's tuple indexing (including the out-of-range `[2]`) can be modelled. -/
def monthrange (y m : Nat) : Except PyErr (List Nat) :=
  if 1 ≤ m ∧ m ≤ 12 then .ok [firstWeekday y m, daysInMonth y m]
  else .error .illegalMonth

/-- Python sequence indexing `t[i]`: `IndexError` when out of range. -/
def pyIndex (t : List Nat) (i : Nat) : Except PyErr Nat :=
  match t.get? i with
  | some v => .ok v
  | none => .error .indexError

/-- A `datetime.date` value. -/
structure PyDate where
  year : Nat
  month : Nat
  day : Nat
  deriving DecidableEq, Repr

/-- The `datetime.date` constructor: `ValueError` outside the valid ranges. -/
def mkDate (y m d : Nat) : Except PyErr PyDate :=
  if 1 ≤ y ∧ y ≤ 9999 ∧ 1 ≤ m ∧ m ≤ 12 ∧ 1 ≤ d ∧ d ≤ daysInMonth y m then .ok ⟨y, m, d⟩
  else .error .valueError

def pad2 (n : Nat) : String := if n < 10 then "0" ++ toString n else toString n

def pad4 (n : Nat) : String :=
  if n < 10 then "000" ++ toString n
  else if n < 100 then "00" ++ toString n
  else if n < 1000 then "0" ++ toString n
  else toString n

/-- `%b`: abbreviated month name. -/
def monthAbbrev (m : Nat) : String :=
  match m with
  | 1 => "Jan" | 2 => "Feb" | 3 => "Mar" | 4 => "Apr" | 5 => "May" | 6 => "Jun"
  | 7 => "Jul" | 8 => "Aug" | 9 => "Sep" | 10 => "Oct" | 11 => "Nov" | _ => "Dec"

/-- `date.strftime` for the two formats `parse_date` uses. -/
def strftimeDate (fmt : String) (d : PyDate) : String :=
  if fmt = "%d-%b-%Y" then pad2 d.day ++ "-" ++ monthAbbrev d.month ++ "-" ++ pad4 d.year
  else pad4 d.year ++ "-" ++ pad2 d.month ++ "-" ++ pad2 d.day

/-- Python `\s`. -/
def isPySpace (c : Nat) : Bool := c = 32 ∨ c = 9 ∨ c = 10 ∨ c = 13 ∨ c = 12 ∨ c = 11

def isDigitCode (c : Nat) : Bool := decide (48 ≤ c ∧ c ≤ 57)

/-- `(\d{2})?`: two digits or nothing. -/
def takeDigits2 : List Nat → Option (List Nat) × List Nat
  | a :: b :: rest =>
      if isDigitCode a ∧ isDigitCode b then (some [a, b], a :: b :: rest) else (none, a :: b :: rest)
  | s => (none, s)

/-- `(\d{4})`: exactly four digits, else the whole regex fails. -/
def takeDigits4 : List Nat → Option (List Nat × List Nat)
  | a :: b :: c :: d :: rest =>
      if isDigitCode a ∧ isDigitCode b ∧ isDigitCode c ∧ isDigitCode d
      then some ([a, b, c, d], rest) else none
  | _ => none

/-- `-?`. -/
def dropDash : List Nat → List Nat
  | 45 :: rest => rest
  | s => s

/-- The captured groups of the `parse_date` regex
`^([<>])?\s*(\d{4})-?(\d{2})?-?(\d{2})?(\s*to\s*)?(\d{4})?-?(\d{2})?-?(\d{2})?`. -/
structure DateDefGroups where
  modifier : Option Nat
  y1 : List Nat
  m1 : Option (List Nat)
  d1 : Option (List Nat)
  toGroup : Bool
  y2 : Option (List Nat)
  m2 : Option (List Nat)
  d2 : Option (List Nat)
  deriving DecidableEq, Repr

/-- `(\s*to\s*)?` (116 = `t`, 111 = `o`). -/
def takeToGroup (s : List Nat) : Bool × List Nat :=
  match s.dropWhile isPySpace with
  | 116 :: 111 :: rest => (true, rest.dropWhile isPySpace)
  | _ => (false, s)

/-- `re.match` of the `parse_date` regex (greedy, anchored at the start,
trailing input ignored); `none` when the match fails. -/
def parseDateRegex (s : List Nat) : Option DateDefGroups :=
  let (mod, s1) := match s with
    | c :: rest => if c = 60 ∨ c = 62 then (some c, rest) else (none, s)
    | [] => (none, [])
  let s2 := s1.dropWhile isPySpace
  match takeDigits4 s2 with
  | none => none
  | some (y1, s3) =>
    let (m1, s5) :=
      match takeDigits2 (dropDash s3) with
      | (some g, r) => (some g, r.drop 2)
      | (none, r) => (none, r)
    let (d1, s7) :=
      match takeDigits2 (dropDash s5) with
      | (some g, r) => (some g, r.drop 2)
      | (none, r) => (none, r)
    let (tog, s8) := takeToGroup s7
    match takeDigits4 s8 with
    | none => some ⟨mod, y1, m1, d1, tog, none, none, none⟩
    | some (y2, s9) =>
      let (m2, s11) :=
        match takeDigits2 (dropDash s9) with
        | (some g, r) => (some g, r.drop 2)
        | (none, r) => (none, r)
      let (d2, _) :=
        match takeDigits2 (dropDash s11) with
        | (some g, r) => (some g, r.drop 2)
        | (none, r) => (none, r)
      some ⟨mod, y1, m1, d1, tog, some y2, m2, d2⟩

/-- `int` on a captured digit group. -/
def digitsToNat (ds : List Nat) : Nat := ds.foldl (fun acc c => acc * 10 + (c - 48)) 0

/-- `int(g)` where `g` may be an unmatched group (`None`): `TypeError`. -/
def pyIntOpt (g : Option (List Nat)) : Except PyErr Nat :=
  match g with
  | some v => .ok (digitsToNat v)
  | none => .error .typeError

/-- Source `parse_date` (line 186): returns the formatted
`(date_on, date_since, date_before)` triple, or the exception the Python
code raises.  Line 258 indexes `calendar.monthrange(y2, m2)[2]`. -/
def parse_date (date_def : List Nat) (date_format : String) :
    Except PyErr (Option String × Option String × Option String) := do
  let fmt := if date_format = "imap" then "%d-%b-%Y"
    else if date_format = "ymd" then "%Y-%m-%d" else date_format
  match parseDateRegex date_def with
  | none => .error .runtimeWarning
  | some g =>
    if g.modifier = some 62 then do
      -- after
      let y1 := digitsToNat g.y1
      let m1 := match g.m1 with | some v => digitsToNat v | none => 1
      let d1 := match g.d1 with | some v => digitsToNat v | none => 1
      let dsince ← mkDate y1 m1 d1
      pure (none, some (strftimeDate fmt dsince), none)
    else if g.modifier = some 60 then do
      -- before
      let y1 := digitsToNat g.y1
      let m1 := match g.m1 with | some v => digitsToNat v | none => 12
      let d1 ← match g.d1 with
        | some v => pure (digitsToNat v)
        | none => do
            let mr ← monthrange y1 m1
            pyIndex mr 1
      let dbefore ← mkDate y1 m1 d1
      pure (none, none, some (strftimeDate fmt dbefore))
    else do
      -- single date, with optional range
      let y1 := digitsToNat g.y1
      let (dOn, dSince, dBefore) ←
        (match g.m1 with
        | none => do
            let ds ← mkDate y1 1 1
            let db ← mkDate y1 12 31
            pure ((none : Option PyDate), some ds, some db)
        | some m1v =>
          match g.d1 with
          | none => do
              let m1 := digitsToNat m1v
              let ds ← mkDate y1 m1 1
              let mr ← monthrange y1 m1
              let dd ← pyIndex mr 1
              let db ← mkDate y1 m1 dd
              pure (none, some ds, some db)
          | some d1v => do
              let dOn ← mkDate y1 (digitsToNat m1v) (digitsToNat d1v)
              pure (some dOn, none, none))
      let (dSince, dBefore) ←
        (if g.toGroup then do
          -- range
          let y2 ← pyIntOpt g.y2
          let dSince ← match dSince with
            | some ds => pure (some ds)
            | none => do
                -- date(y1, m1, d1): only reachable from the full-date branch
                let m1 := match g.m1 with | some v => digitsToNat v | none => 0
                let d1 := match g.d1 with | some v => digitsToNat v | none => 0
                let ds ← mkDate y1 m1 d1
                pure (some ds)
          match g.m2 with
          | none => do
              let db ← mkDate y2 12 31
              pure (dSince, some db)
          | some m2v =>
            match g.d2 with
            | none => do
                let m2 := digitsToNat m2v
                let mr ← monthrange y2 m2
                let dd ← pyIndex mr 2
                let db ← mkDate y2 m2 dd
                pure (dSince, some db)
            | some d2v => do
                let db ← mkDate y2 (digitsToNat m2v) (digitsToNat d2v)
                pure (dSince, some db)
        else pure (dSince, dBefore))
      pure (dOn.map (strftimeDate fmt), dSince.map (strftimeDate fmt),
        dBefore.map (strftimeDate fmt))

instance : DecidablePred ValidScalar := fun c => by unfold ValidScalar; infer_instance

/-- The flush of a pending `unipart` (the two `if unipart != ''` sites of the
source encoder); proof infrastructure. -/
def flushUni (uni : List Nat) : List Nat := if uni = [] then [] else encBlock uni

/-- Structural recursion equivalent to the `for c in s` loop of
`imaputf7encode`, carrying the pending `unipart`; proof infrastructure. -/
def encFrom : List Nat → List Nat → List Nat
  | uni, [] => flushUni uni
  | uni, c :: rest =>
      if printableAscii c then flushUni uni ++ c :: encFrom [] rest
      else encFrom (uni ++ [c]) rest

/-- The final `if unipart != ''` of `imaputf7encode`; proof infrastructure. -/
def encFinish (acc : List Nat × List Nat) : List Nat :=
  if acc.1 ≠ [] then acc.2 ++ encBlock acc.1 else acc.2

/-! ## The extract pipeline (source lines 275-631) -/

/-- `l1` occurs as a contiguous run inside `l2`. -/
def listInfix (needle : List Char) : List Char → Bool
  | [] => needle.isPrefixOf []
  | c :: rest => needle.isPrefixOf (c :: rest) || listInfix needle rest

/-- Python substring test `needle in haystack`. -/
def strContains (haystack needle : String) : Bool := listInfix needle.toList haystack.toList

/-- Python string `<` (code-point lexicographic). -/
def codesLt : List Nat → List Nat → Bool
  | [], [] => false
  | [], _ :: _ => true
  | _ :: _, [] => false
  | x :: xs, y :: ys => if x < y then true else if y < x then false else codesLt xs ys

def pyStrLt (a b : String) : Bool := codesLt (strCodes a) (strCodes b)

def pyStrLe (a b : String) : Bool := pyStrLt a b || a == b

/-- ASCII case folding of one code point (the source only lowercases ASCII
header names and transfer-encoding values). -/
def lowerCode (c : Nat) : Nat := if 65 ≤ c ∧ c ≤ 90 then c + 32 else c

/-- `a.lower() == b.lower()`. -/
def lowerEq (a b : String) : Bool := (strCodes a).map lowerCode == (strCodes b).map lowerCode

/-- `s.startswith(p)`. -/
def strStartsWith (s p : String) : Bool := p.toList.isPrefixOf s.toList

/-- `Message.get(name)`: first header whose name matches case-insensitively. -/
def getHeader (hs : List (String × String)) (name : String) : Option String :=
  match hs.find? (fun p => lowerEq p.1 name) with
  | some p => some p.2
  | none => none

/-- `Message.get(name, failobj)`. -/
def getHeaderD (hs : List (String × String)) (name dflt : String) : String :=
  (getHeader hs name).getD dflt

/-- `Message.replace_header`: replace the first case-insensitive match in
place (keeping the stored name), `KeyError` when absent. -/
def replaceHeader (hs : List (String × String)) (name value : String) :
    Except PyErr (List (String × String)) :=
  match hs with
  | [] => .error .keyError
  | (k, v) :: rest =>
      if lowerEq k name then .ok ((k, value) :: rest)
      else (replaceHeader rest name value).map (fun r => (k, v) :: r)

/-- Python `base64.b64decode` with default arguments (`validate=False`):
characters outside the alphabet are discarded, then strict group decoding;
`binascii.Error` on bad padding. -/
def pyB64DecodeLoose (s : List Nat) : Except PyErr (List Nat) :=
  match b64decodeGroups b64indexStd (s.filter (fun c => (b64indexStd c).isSome || c == 61)) with
  | some bs => .ok bs
  | none => .error .binasciiError

/-- UTF-8 encoding of one Unicode scalar value. -/
def utf8EncodeChar (c : Nat) : List Nat :=
  if c < 0x80 then [c]
  else if c < 0x800 then [0xC0 + c / 0x40, 0x80 + c % 0x40]
  else if c < 0x10000 then [0xE0 + c / 0x1000, 0x80 + c / 0x40 % 0x40, 0x80 + c % 0x40]
  else [0xF0 + c / 0x40000, 0x80 + c / 0x1000 % 0x40, 0x80 + c / 0x40 % 0x40, 0x80 + c % 0x40]

/-- `str.encode("utf-8")`. -/
def utf8Encode : List Nat → List Nat
  | [] => []
  | c :: rest => utf8EncodeChar c ++ utf8Encode rest

/-- The extractor configuration consumed by the per-message logic
(the `self.*` fields that `extract` reads). -/
structure Config where
  maxSize : Nat
  flaggedAction : String
  extractOnly : Bool
  thunderbirdMode : Bool
  dryRun : Bool
  debug : Bool
  extractDir : String
  deriving DecidableEq, Repr

/-- A MIME leaf or container part as `mail.walk()` yields it.  Only the
accessors the source reads are modelled; `filename` holds the
`decode_header`-decoded declared filename (`none` when `get_filename()` is
falsy), `payload` the `get_payload()` string. -/
structure Part where
  contentType : String
  contentDisposition : Option String
  filename : Option String
  payload : List Nat
  headers : List (String × String)
  deriving DecidableEq, Repr

/-- Lines 513-524: decode the attachment payload.  `binascii.Error` is the
only failure (caught by the source and degraded to copy-unchanged). -/
def decodeAttachmentContent (part : Part) : Except PyErr (List Nat) :=
  if lowerEq (getHeaderD part.headers "Content-Transfer-Encoding" "") "base64" then
    pyB64DecodeLoose part.payload
  else
    .ok (utf8Encode part.payload)

/-- `extract_dir.replace("\\", "/")`. -/
def backslashToSlash (s : String) : String :=
  String.mk (s.toList.map (fun c => if c = '\\' then '/' else c))

/-- `"\n".join(map(lambda x: x[0]+": "+x[1], part._headers))`. -/
def headersStr (hs : List (String × String)) : String :=
  String.intercalate "\n" (hs.map (fun p => p.1 ++ ": " ++ p.2))

/-- Lines 561-568: the Thunderbird replacement stub built for an extracted
part (`now` is the `Time2Internaldate(time())` value). -/
def mkStubPart (part : Part) (extractDir filename now : String) : Except PyErr Part := do
  let hs ← replaceHeader part.headers "Content-Transfer-Encoding" ""
  let urlPath := "file:///" ++ backslashToSlash extractDir ++ "/" ++ filename
  pure { contentType := part.contentType
         contentDisposition := part.contentDisposition
         filename := part.filename
         payload := strCodes
           ("You deleted an attachment from this message. The original MIME headers for the attachment were:\n"
             ++ headersStr part.headers)
         headers := hs ++ [("X-Mozilla-External-Attachment-URL", urlPath),
                           ("X-Mozilla-Altered", "AttachmentDetached; date=" ++ now)] }

/-- The collision rewrite of line 538:
`re.sub("^(\d{4}-\d{2}-\d{2}) (?:\(\d+\) )?- (.*)$", "\g<1> (%02d) - \g<2>" % idx, filename)`.
`(?:\(\d+\) )?` is dropped when present.  A failed match leaves the name
unchanged (the `$`-before-final-newline corner of Python `re` is not
modelled; the names built by the source never contain a newline unless the
attachment filename does). -/
def dropParenGroup : List Char → List Char
  | '(' :: rest =>
      match rest.takeWhile Char.isDigit, rest.dropWhile Char.isDigit with
      | _ :: _, ')' :: ' ' :: tail => tail
      | _, _ => '(' :: rest
  | s => s

def extractNameParts (s : List Char) : Option (String × String) :=
  match s with
  | y1 :: y2 :: y3 :: y4 :: h1 :: m1 :: m2 :: h2 :: d1 :: d2 :: sp :: rest =>
      if y1.isDigit ∧ y2.isDigit ∧ y3.isDigit ∧ y4.isDigit ∧ h1 = '-' ∧
         m1.isDigit ∧ m2.isDigit ∧ h2 = '-' ∧ d1.isDigit ∧ d2.isDigit ∧ sp = ' ' then
        match dropParenGroup rest with
        | '-' :: ' ' :: tail =>
            if '\n' ∈ tail then none
            else some (String.mk [y1, y2, y3, y4, h1, m1, m2, h2, d1, d2], String.mk tail)
        | _ => none
      else none
  | _ => none

def renameWithIdx (filename : String) (idx : Nat) : String :=
  match extractNameParts filename.toList with
  | some (datePart, namePart) => datePart ++ " (" ++ pad2 idx ++ ") - " ++ namePart
  | none => filename

/-- The `while os.path.exists(...)` loop of lines 535-538, with fuel
(`fs` is the set of files already present in the extraction directory). -/
def collisionLoop (fs : List String) : Nat → String → Nat → String
  | 0, filename, _ => filename
  | fuel + 1, filename, idx =>
      if filename ∈ fs then collisionLoop fs fuel (renameWithIdx filename (idx + 1)) (idx + 1)
      else filename

def findFreeName (fs : List String) (base : String) : String :=
  collisionLoop fs (fs.length + 1) base 0

/-- A fetched message, with the fields lines 412-443 derive already parsed:
`flags` from `ParseFlags`, `subject` decoded, `mailDate` from the Date
header, `walkParts` the document-order `mail.walk()` sequence. -/
structure Mail where
  headers : List (String × String)
  walkParts : List Part
  flags : List String
  subject : String
  mailDate : PyDate
  deriving DecidableEq, Repr

/-- The per-message mutable state of the walk loop (lines 464-472), plus the
extraction-directory contents `fs` standing for the filesystem. -/
structure WalkState where
  hasAlternative : Bool
  nbAlternative : Nat
  nbExtraction : Nat
  partNb : Nat
  newMailParts : List Part
  fs : List String
  filesWritten : List String
  deriving DecidableEq, Repr

def initWalkState (fs : List String) : WalkState :=
  { hasAlternative := false, nbAlternative := 0, nbExtraction := 0, partNb := 1,
    newMailParts := [], fs := fs, filesWritten := [] }

/-- The claim's per-part "attachment candidate" test: disposition present and
starting with "attachment" (source line 492). -/
def isAttachmentDisposition (part : Part) : Bool :=
  match part.contentDisposition with
  | some d => strStartsWith d "attachment"
  | none => false

/-- One iteration of `for part in mail.walk()` (source lines 481-570). -/
def processPart (cfg : Config) (mailDate : PyDate) (isFlagged : Bool) (now : String)
    (st : WalkState) (part : Part) : Except PyErr WalkState :=
  if strStartsWith part.contentType "multipart/" then
    if part.contentType == "multipart/alternative" then
      .ok { st with newMailParts := st.newMailParts ++ [part], hasAlternative := true }
    else .ok st
  else if st.hasAlternative ∧ st.nbAlternative < 2 ∧
      (part.contentType == "text/plain" ∨ part.contentType == "text/html") then
    .ok { st with nbAlternative := st.nbAlternative + 1 }
  else
    let isAttachment := isAttachmentDisposition part
    if isAttachment = false then
      .ok { st with newMailParts := st.newMailParts ++ [part] }
    else
      let partNb := st.partNb + 1
      let attachmentFilename := match part.filename with
        | none => "part." ++ toString partNb
        | some f => f
      if strContains (getHeaderD part.headers "X-Mozilla-Altered" "") "AttachmentDetached" then
        .ok { st with partNb := partNb }
      else
        match decodeAttachmentContent part with
        | .error .binasciiError =>
            .ok { st with partNb := partNb, newMailParts := st.newMailParts ++ [part] }
        | .error e => .error e
        | .ok content =>
          if content.length < cfg.maxSize then
            .ok { st with partNb := partNb, newMailParts := st.newMailParts ++ [part] }
          else
            let filename :=
              findFreeName st.fs (strftimeDate "%Y-%m-%d" mailDate ++ " - " ++ attachmentFilename)
            let st2 := { st with
              partNb := partNb
              fs := if cfg.dryRun = false then st.fs ++ [filename] else st.fs
              filesWritten := if cfg.dryRun = false then st.filesWritten ++ [filename]
                else st.filesWritten
              nbExtraction := st.nbExtraction + 1 }
            if cfg.thunderbirdMode = true ∧ (cfg.flaggedAction == "detach" ∨ isFlagged = false) then do
              let stub ← mkStubPart part cfg.extractDir filename now
              .ok { st2 with newMailParts := st2.newMailParts ++ [stub] }
            else .ok st2

def walkMail (cfg : Config) (mailDate : PyDate) (isFlagged : Bool) (now : String) :
    WalkState → List Part → Except PyErr WalkState
  | st, [] => .ok st
  | st, p :: rest => do
      let st2 ← processPart cfg mailDate isFlagged now st p
      walkMail cfg mailDate isFlagged now st2 rest

/-- The local variable `dates` of `extract`: assigned at line 305 only in the
`elif date_def:` branch; `unbound` models the fall-through when no date
definition was supplied. -/
inductive DatesVar where
  | unbound
  | bound (dates : Option String × Option String × Option String)
  deriving DecidableEq, Repr

def isTruthy (o : Option String) : Bool :=
  match o with
  | none => false
  | some s => s ≠ ""

/-- Lines 445-461: the local date post-filter applied to
`check_date = mail_date.strftime("%Y-%m-%d")`.  Reading the never-assigned
`dates` raises `UnboundLocalError` (`nameError`). -/
def dateFilter (dates : DatesVar) (checkDate : String) : Except PyErr Bool :=
  match dates with
  | .unbound => .error .nameError
  | .bound (dOn, dSince, dBefore) =>
      .ok (if isTruthy dOn then checkDate == dOn.getD ""
        else if isTruthy dSince ∧ isTruthy dBefore = false then pyStrLe (dSince.getD "") checkDate
        else if isTruthy dBefore ∧ isTruthy dSince = false then pyStrLe checkDate (dBefore.getD "")
        else if isTruthy dSince ∧ isTruthy dBefore then
          pyStrLe (dSince.getD "") checkDate && pyStrLe checkDate (dBefore.getD "")
        else false)

/-- The observable outcome of processing one message of `to_fetch`
(lines 391-617): the rebuilt message parts, the extraction count, the files
written, the resulting directory contents, and whether an APPEND and a
`+FLAGS \Deleted` STORE were issued for this message.  `skipped` marks the
date-filter and flagged-skip `continue` paths. -/
structure MailResult where
  newMailParts : List Part
  nbExtraction : Nat
  filesWritten : List String
  fs : List String
  appendCalled : Bool
  storeCalled : Bool
  skipped : Bool
  deriving DecidableEq, Repr

def skippedResult (fs : List String) : MailResult :=
  { newMailParts := [], nbExtraction := 0, filesWritten := [], fs := fs,
    appendCalled := false, storeCalled := false, skipped := true }

/-- Lines 572-608 once the walk finished: the append-then-conditional-delete
transaction.  `appendStatus` is the status the server returns to the APPEND
of the rebuilt message; the STORE of `\Deleted` is issued exactly where the
source issues it (append succeeded, no debug, no dry run). -/
def replaceTransaction (cfg : Config) (appendStatus : String) (isFlagged : Bool)
    (st : WalkState) : MailResult :=
  let base : MailResult :=
    { newMailParts := st.newMailParts, nbExtraction := st.nbExtraction,
      filesWritten := st.filesWritten, fs := st.fs,
      appendCalled := false, storeCalled := false, skipped := false }
  if st.nbExtraction > 0 ∧ cfg.extractOnly = false ∧
      (cfg.flaggedAction == "detach" ∨ isFlagged = false) then
    if cfg.dryRun = false then
      if appendStatus ≠ "OK" then
        -- line 585: `continue` — the original message is left in place
        { base with appendCalled := true, storeCalled := false }
      else if cfg.debug = false then
        -- lines 595-596: STORE '+FLAGS' '\Deleted'
        { base with appendCalled := true, storeCalled := true }
      else
        { base with appendCalled := true, storeCalled := false }
    else base
  else base

/-- One iteration of `for uid in to_fetch` (lines 391-617). -/
def processMail (cfg : Config) (dates : DatesVar) (appendStatus now : String)
    (fs : List String) (mail : Mail) : Except PyErr MailResult := do
  let checkDate := strftimeDate "%Y-%m-%d" mail.mailDate
  let dateOk ← dateFilter dates checkDate
  if dateOk = false then
    pure (skippedResult fs)
  else
    let isFlagged := mail.flags.contains "\\Flagged"
    if isFlagged ∧ cfg.flaggedAction == "skip" then
      pure (skippedResult fs)
    else do
      let st ← walkMail cfg mail.mailDate isFlagged now (initWalkState fs) mail.walkParts
      pure (replaceTransaction cfg appendStatus isFlagged st)

/-- The whole `for uid in to_fetch` loop, threading the extraction
directory contents. -/
def extractLoop (cfg : Config) (dates : DatesVar) (appendStatus now : String) :
    List String → List Mail → Except PyErr (List MailResult)
  | _, [] => .ok []
  | fs, m :: rest => do
      let r ← processMail cfg dates appendStatus now fs m
      let rs ← extractLoop cfg dates appendStatus now r.fs rest
      .ok (r :: rs)

/-- `extract` from the date-criteria check onward (lines 301-317 and the
per-message loop; the protocol search and structure scan in between only
select `mails`, the `to_fetch` list). -/
def extractRun (cfg : Config) (dateDef : Option (List Nat)) (fetchAll : Bool)
    (appendStatus now : String) (fs : List String) (mails : List Mail) :
    Except PyErr (List MailResult) :=
  if dateDef = none ∧ ¬ fetchAll then
    .error .runtimeWarning
  else do
    let dates ← match dateDef with
      | some dd => do
          let _ ← parse_date dd "imap"
          let t ← parse_date dd "ymd"
          pure (DatesVar.bound t)
      | none => pure DatesVar.unbound
    extractLoop cfg dates appendStatus now fs mails

/-- A part reaches the attachment decision of lines 492-506: it is no
multipart container, it is not swallowed by the multipart/alternative leaf
skip of line 488, and its disposition starts with "attachment". -/
def reachesAttachmentDecision (st : WalkState) (part : Part) : Bool :=
  if strStartsWith part.contentType "multipart/" then false
  else if st.hasAlternative ∧ st.nbAlternative < 2 ∧
      (part.contentType == "text/plain" ∨ part.contentType == "text/html") then false
  else isAttachmentDisposition part

/-- Iterated collision renaming: the n-th candidate name the while loop of
lines 535-538 tries. -/
def iterRename (filename : String) (idx : Nat) : Nat → String
  | 0 => filename
  | j + 1 => iterRename (renameWithIdx filename (idx + 1)) (idx + 1) j

/-! ## Concrete fixtures for witnesses and counterexamples -/

/-- A plain configuration: 100-byte threshold, skip flagged, no special modes. -/
def fixtureCfg : Config :=
  { maxSize := 100, flaggedAction := "skip", extractOnly := false,
    thunderbirdMode := false, dryRun := false, debug := false, extractDir := "/mail/out" }

/-- A 200-byte attachment (7bit transfer encoding, so its payload bytes are
its UTF-8 code units). -/
def fixtureBigPart : Part :=
  { contentType := "application/pdf", contentDisposition := some "attachment",
    filename := some "a.pdf", payload := List.replicate 200 65,
    headers := [("Content-Type", "application/pdf"), ("Content-Transfer-Encoding", "7bit"),
                ("Content-Disposition", "attachment; filename=a.pdf")] }

/-- An inline text body part. -/
def fixtureTextPart : Part :=
  { contentType := "text/plain", contentDisposition := none,
    filename := none, payload := strCodes "hello", headers := [("Content-Type", "text/plain")] }

/-- The big attachment with the Thunderbird "previously detached" marker. -/
def fixtureDetachedPart : Part :=
  { fixtureBigPart with
    headers := fixtureBigPart.headers ++ [("X-Mozilla-Altered", "AttachmentDetached; date=x")] }

/-- The big attachment with its decoded size exactly at the threshold. -/
def fixtureAtThresholdPart : Part := { fixtureBigPart with payload := List.replicate 100 65 }

/-- A multipart/alternative container. -/
def fixtureAltPart : Part :=
  { contentType := "multipart/alternative", contentDisposition := none,
    filename := none, payload := [], headers := [] }

/-- A text/plain part with attachment disposition (swallowed by the
alternative skip when it directly follows `fixtureAltPart`'s first child). -/
def fixtureTextAttach : Part :=
  { contentType := "text/plain", contentDisposition := some "attachment",
    filename := some "x.txt", payload := strCodes "hi", headers := [] }

/-- The big attachment without a declared filename. -/
def fixtureUnnamedPart : Part := { fixtureBigPart with filename := none }

/-- An unflagged message whose walk yields a text body and one big attachment. -/
def fixtureMail : Mail :=
  { headers := [("Subject", "test")], walkParts := [fixtureTextPart, fixtureBigPart],
    flags := [], subject := "test", mailDate := ⟨2020, 1, 15⟩ }

/-- Bound `dates` covering the fixture message's date. -/
def fixtureDates : DatesVar := .bound (none, some "2020-01-01", some "2020-12-31")

/-- The plain configuration with Thunderbird mode enabled. -/
def fixtureCfgThunderbird : Config := { fixtureCfg with thunderbirdMode := true }

/-- The fixture message, flagged. -/
def fixtureFlaggedMail : Mail := { fixtureMail with flags := ["\\Flagged", "\\Seen"] }

/-- The big attachment with its decoded size strictly below the threshold. -/
def fixtureBelowPart : Part := { fixtureBigPart with payload := List.replicate 99 65 }

/-- The result of processing the fixture message when the APPEND fails. -/
def fixtureC1Result : MailResult :=
  { newMailParts := [fixtureTextPart], nbExtraction := 1,
    filesWritten := ["2020-01-15 - a.pdf"], fs := ["2020-01-15 - a.pdf"],
    appendCalled := true, storeCalled := false, skipped := false }

/-! ## Round-trip of the base64 layer -/

theorem b64alpha_ne61 (i : Nat) : b64alpha i ≠ 61 := by
  unfold b64alpha; split_ifs <;> omega

theorem b64alpha_ne38 (i : Nat) : b64alpha i ≠ 38 := by
  unfold b64alpha; split_ifs <;> omega

theorem b64alpha_ne45 (i : Nat) : b64alpha i ≠ 45 := by
  unfold b64alpha; split_ifs <;> omega

theorem b64indexAlt_alpha : ∀ i < 64, b64indexAlt (b64alpha i) = some i := by decide

theorem b64_decode_encode : ∀ bs : List Nat, (∀ b ∈ bs, b < 256) →
    b64decodeGroups b64indexAlt (b64encodeP bs) = some bs
  | [], _ => rfl
  | [a], h => by
      have ha : a < 256 := h a (by simp)
      have e1 := b64indexAlt_alpha (a / 4) (by omega)
      have e2 := b64indexAlt_alpha (a % 4 * 16) (by omega)
      simp only [b64encodeP, b64decodeGroups, e1, e2, if_pos rfl, and_self, if_true]
      simp only [Option.some.injEq, List.cons.injEq, and_true]
      omega
  | [a, b], h => by
      have ha : a < 256 := h a (by simp)
      have hb : b < 256 := h b (by simp)
      have e1 := b64indexAlt_alpha (a / 4) (by omega)
      have e2 := b64indexAlt_alpha (a % 4 * 16 + b / 16) (by omega)
      have e3 := b64indexAlt_alpha (b % 16 * 4) (by omega)
      simp only [b64encodeP, b64decodeGroups, e1, e2, e3,
        if_neg (b64alpha_ne61 (b % 16 * 4)), if_pos rfl, if_true]
      simp only [Option.some.injEq, List.cons.injEq, and_true]
      omega
  | a :: b :: c :: rest, h => by
      have ha : a < 256 := h a (by simp)
      have hb : b < 256 := h b (by simp)
      have hc : c < 256 := h c (by simp)
      have ih := b64_decode_encode rest (fun x hx => h x (by simp [hx]))
      have e1 := b64indexAlt_alpha (a / 4) (by omega)
      have e2 := b64indexAlt_alpha (a % 4 * 16 + b / 16) (by omega)
      have e3 := b64indexAlt_alpha (b % 16 * 4 + c / 64) (by omega)
      have e4 := b64indexAlt_alpha (c % 64) (by omega)
      simp only [b64encodeP, b64decodeGroups, e1, e2, e3, e4, ih,
        if_neg (b64alpha_ne61 (b % 16 * 4 + c / 64)), if_neg (b64alpha_ne61 (c % 64))]
      simp only [Option.some.injEq, List.cons.injEq, and_true]
      refine ⟨by omega, by omega, by omega⟩

theorem dropWhile_append_of_ne_nil {p : Nat → Bool} :
    ∀ (a b : List Nat), a.dropWhile p ≠ [] → (a ++ b).dropWhile p = a.dropWhile p ++ b := by
  intro a b
  induction a with
  | nil => intro h; exact absurd rfl h
  | cons x xs ih =>
      intro h
      by_cases hx : p x
      · simp only [List.cons_append, List.dropWhile_cons, hx, if_true] at h ⊢
        exact ih h
      · simp [List.dropWhile_cons, hx]

theorem rstripEq_append (xs ys : List Nat) (h : rstripEq ys ≠ []) :
    rstripEq (xs ++ ys) = xs ++ rstripEq ys := by
  unfold rstripEq at *
  rw [List.reverse_append, dropWhile_append_of_ne_nil]
  · rw [List.reverse_append, List.reverse_reverse]
  · intro hnil
    exact h (by rw [hnil]; rfl)

theorem rstripEq_ne_nil_of_mem {xs : List Nat} {x : Nat} (hx : x ∈ xs) (hne : ¬(x == 61)) :
    rstripEq xs ≠ [] := by
  unfold rstripEq
  intro h
  have h2 : xs.reverse.dropWhile (fun c => c == 61) = [] := by
    have := congrArg List.reverse h
    rwa [List.reverse_reverse, List.reverse_nil] at this
  rw [List.dropWhile_eq_nil_iff] at h2
  exact hne (h2 x (List.mem_reverse.mpr hx))

theorem mem_b64encodeP : ∀ (bs : List Nat) (x : Nat), x ∈ b64encodeP bs →
    x = 61 ∨ ∃ i, x = b64alpha i
  | [], x, hx => by simp [b64encodeP] at hx
  | [a], x, hx => by
      simp only [b64encodeP, List.mem_cons, List.mem_singleton] at hx
      rcases hx with h | h | h | h
      · exact Or.inr ⟨_, h⟩
      · exact Or.inr ⟨_, h⟩
      · exact Or.inl h
      · simp at h; exact Or.inl h
  | [a, b], x, hx => by
      simp only [b64encodeP, List.mem_cons, List.mem_singleton] at hx
      rcases hx with h | h | h | h
      · exact Or.inr ⟨_, h⟩
      · exact Or.inr ⟨_, h⟩
      · exact Or.inr ⟨_, h⟩
      · simp at h; exact Or.inl h
  | a :: b :: c :: rest, x, hx => by
      simp only [b64encodeP, List.mem_cons] at hx
      rcases hx with h | h | h | h | h
      · exact Or.inr ⟨_, h⟩
      · exact Or.inr ⟨_, h⟩
      · exact Or.inr ⟨_, h⟩
      · exact Or.inr ⟨_, h⟩
      · exact mem_b64encodeP rest x h

theorem mem_rstripEq {xs : List Nat} {x : Nat} (hx : x ∈ rstripEq xs) : x ∈ xs := by
  unfold rstripEq at hx
  rw [List.mem_reverse] at hx
  have := (List.dropWhile_sublist (l := xs.reverse) (p := fun c => c == 61)).subset hx
  exact List.mem_reverse.mp this

/-- The head of an encoded non-empty byte list is an alphabet character. -/
theorem b64encodeP_head : ∀ (a : Nat) (bs : List Nat),
    ∃ i t, b64encodeP (a :: bs) = b64alpha i :: t
  | a, [] => ⟨a / 4, _, rfl⟩
  | a, [b] => ⟨a / 4, _, rfl⟩
  | a, b :: c :: rest => ⟨a / 4, _, rfl⟩

theorem b64alpha_beq61 (i : Nat) : (b64alpha i == 61) = false := by
  rw [beq_eq_false_iff_ne]; exact b64alpha_ne61 i

theorem padEq_four_append (g y : List Nat) (hg : g.length = 4) : padEq (g ++ y) = g ++ padEq y := by
  unfold padEq
  rw [List.append_assoc]
  congr 2
  rw [List.length_append, hg]
  congr 1
  omega

theorem pad_rstrip : ∀ bs : List Nat, padEq (rstripEq (b64encodeP bs)) = b64encodeP bs
  | [] => rfl
  | [a] => by
      show padEq (rstripEq [b64alpha (a / 4), b64alpha (a % 4 * 16), 61, 61]) = b64encodeP [a]
      have h1 : rstripEq [b64alpha (a / 4), b64alpha (a % 4 * 16), 61, 61]
          = [b64alpha (a / 4), b64alpha (a % 4 * 16)] := by
        simp [rstripEq, b64alpha_beq61]
      rw [h1]
      simp [padEq, b64encodeP, List.replicate]
  | [a, b] => by
      show padEq (rstripEq [b64alpha (a / 4), b64alpha (a % 4 * 16 + b / 16),
          b64alpha (b % 16 * 4), 61]) = b64encodeP [a, b]
      have h1 : rstripEq [b64alpha (a / 4), b64alpha (a % 4 * 16 + b / 16),
          b64alpha (b % 16 * 4), 61]
          = [b64alpha (a / 4), b64alpha (a % 4 * 16 + b / 16), b64alpha (b % 16 * 4)] := by
        simp [rstripEq, b64alpha_beq61]
      rw [h1]
      simp [padEq, b64encodeP, List.replicate]
  | a :: b :: c :: rest => by
      have ih := pad_rstrip rest
      cases rest with
      | nil =>
          show padEq (rstripEq [b64alpha (a / 4), b64alpha (a % 4 * 16 + b / 16),
            b64alpha (b % 16 * 4 + c / 64), b64alpha (c % 64)]) = b64encodeP [a, b, c]
          have h1 : rstripEq [b64alpha (a / 4), b64alpha (a % 4 * 16 + b / 16),
              b64alpha (b % 16 * 4 + c / 64), b64alpha (c % 64)]
              = [b64alpha (a / 4), b64alpha (a % 4 * 16 + b / 16),
                 b64alpha (b % 16 * 4 + c / 64), b64alpha (c % 64)] := by
            simp [rstripEq, b64alpha_beq61]
          rw [h1]
          simp [padEq, b64encodeP, List.replicate]
      | cons r rs =>
          obtain ⟨i, t, hhead⟩ := b64encodeP_head r rs
          have hne : rstripEq (b64encodeP (r :: rs)) ≠ [] := by
            rw [hhead]
            exact rstripEq_ne_nil_of_mem (List.mem_cons_self _ _)
              (by simpa using b64alpha_ne61 i)
          show padEq (rstripEq ([b64alpha (a / 4), b64alpha (a % 4 * 16 + b / 16),
            b64alpha (b % 16 * 4 + c / 64), b64alpha (c % 64)] ++ b64encodeP (r :: rs)))
            = b64encodeP (a :: b :: c :: r :: rs)
          rw [rstripEq_append _ _ hne,
            padEq_four_append [b64alpha (a / 4), b64alpha (a % 4 * 16 + b / 16),
              b64alpha (b % 16 * 4 + c / 64), b64alpha (c % 64)] _ (by simp), ih]
          rfl

/-! ## Round-trip of the UTF-16-BE layer -/

/-- Unfolding equation of `utf16beDecode` at a list with at least two bytes. -/
theorem utf16beDecode_cons_cons (b1 b2 : Nat) (rest : List Nat) :
    utf16beDecode (b1 :: b2 :: rest) =
      (if b1 * 256 + b2 < 0xD800 ∨ 0xE000 ≤ b1 * 256 + b2 then
        (utf16beDecode rest).map (fun l => (b1 * 256 + b2) :: l)
      else if b1 * 256 + b2 < 0xDC00 then
        match rest with
        | b3 :: b4 :: rest2 =>
            if 0xDC00 ≤ b3 * 256 + b4 ∧ b3 * 256 + b4 < 0xE000 then
              (utf16beDecode rest2).map
                (fun l =>
                  (0x10000 + (b1 * 256 + b2 - 0xD800) * 0x400 + (b3 * 256 + b4 - 0xDC00)) :: l)
            else none
        | _ => none
      else none) := by
  cases rest with
  | nil => rfl
  | cons a t =>
    cases t with
    | nil => rfl
    | cons b t2 => rfl

theorem utf16be_roundtrip : ∀ cs : List Nat, (∀ c ∈ cs, ValidScalar c) →
    utf16beDecode (utf16beEncode cs) = some cs := by
  intro cs
  induction cs with
  | nil => intro _; rfl
  | cons c rest ih =>
      intro h
      have hc : ValidScalar c := h c (by simp)
      have hrest := ih (fun x hx => h x (by simp [hx]))
      by_cases hsmall : c < 0x10000
      · have henc : utf16beEncodeChar c = [c / 256, c % 256] := by
          unfold utf16beEncodeChar; rw [if_pos hsmall]
        show utf16beDecode (utf16beEncodeChar c ++ utf16beEncode rest) = some (c :: rest)
        rw [henc]
        have hu : c / 256 * 256 + c % 256 = c := by omega
        show utf16beDecode (c / 256 :: c % 256 :: utf16beEncode rest) = some (c :: rest)
        rw [utf16beDecode_cons_cons]
        rw [if_pos (by unfold ValidScalar at hc; omega), hrest]
        simp only [Option.map_some', hu]
      · have hbig : c < 0x110000 := by unfold ValidScalar at hc; omega
        obtain ⟨q, r, hq, hr, hc'⟩ : ∃ q r, q < 0x400 ∧ r < 0x400 ∧ c = 0x10000 + q * 0x400 + r :=
          ⟨(c - 0x10000) / 0x400, (c - 0x10000) % 0x400, by omega, by omega, by omega⟩
        subst hc'
        have henc : utf16beEncodeChar (0x10000 + q * 0x400 + r)
            = [(0xD800 + q) / 256, (0xD800 + q) % 256,
               (0xDC00 + r) / 256, (0xDC00 + r) % 256] := by
          simp only [utf16beEncodeChar]
          rw [if_neg (by omega)]
          have h1 : 0x10000 + q * 0x400 + r - 0x10000 = q * 0x400 + r := by omega
          rw [h1]
          have h2 : (q * 0x400 + r) / 0x400 = q := by omega
          have h3 : (q * 0x400 + r) % 0x400 = r := by omega
          rw [h2, h3]
        show utf16beDecode (utf16beEncodeChar (0x10000 + q * 0x400 + r) ++ utf16beEncode rest)
            = some ((0x10000 + q * 0x400 + r) :: rest)
        rw [henc]
        have e1 : (0xD800 + q) / 256 * 256 + (0xD800 + q) % 256 = 0xD800 + q := by omega
        show utf16beDecode ((0xD800 + q) / 256 :: (0xD800 + q) % 256 :: (0xDC00 + r) / 256
            :: (0xDC00 + r) % 256 :: utf16beEncode rest)
            = some ((0x10000 + q * 0x400 + r) :: rest)
        rw [utf16beDecode_cons_cons]
        simp only [e1]
        rw [if_neg (by omega), if_pos (by omega)]
        have e2 : (0xDC00 + r) / 256 * 256 + (0xDC00 + r) % 256 = 0xDC00 + r := by omega
        simp only [e2]
        rw [if_pos (by omega), hrest]
        simp only [Option.map_some', Option.some.injEq, List.cons.injEq, and_true]
        omega

theorem utf16beEncodeChar_bytes_lt (c : Nat) (hc : c < 0x110000) :
    ∀ b ∈ utf16beEncodeChar c, b < 256 := by
  unfold utf16beEncodeChar
  by_cases hsmall : c < 0x10000
  · rw [if_pos hsmall]
    intro b hb
    simp only [List.mem_cons, List.not_mem_nil, or_false] at hb
    rcases hb with h | h <;> omega
  · rw [if_neg hsmall]
    intro b hb
    simp only [List.mem_cons, List.not_mem_nil, or_false] at hb
    have h1 : (c - 0x10000) / 0x400 < 0x400 := by omega
    have h2 : (c - 0x10000) % 0x400 < 0x400 := by omega
    rcases hb with h | h | h | h <;> omega

theorem utf16beEncode_bytes_lt : ∀ cs : List Nat, (∀ c ∈ cs, ValidScalar c) →
    ∀ b ∈ utf16beEncode cs, b < 256 := by
  intro cs
  induction cs with
  | nil => intro _ b hb; simp [utf16beEncode] at hb
  | cons c rest ih =>
      intro h b hb
      have hc : ValidScalar c := h c (by simp)
      have hcb : c < 0x110000 := by unfold ValidScalar at hc; omega
      show b < 256
      simp only [utf16beEncode, List.mem_append] at hb
      rcases hb with hb | hb
      · exact utf16beEncodeChar_bytes_lt c hcb b hb
      · exact ih (fun x hx => h x (by simp [hx])) b hb

theorem utf16beEncode_ne_nil : ∀ (c : Nat) (cs : List Nat), utf16beEncode (c :: cs) ≠ [] := by
  intro c cs
  show utf16beEncodeChar c ++ utf16beEncode cs ≠ []
  unfold utf16beEncodeChar
  by_cases hsmall : c < 0x10000
  · rw [if_pos hsmall]; simp
  · rw [if_neg hsmall]; simp

/-! ## Structural form of the encoder (proof infrastructure) -/

theorem replaceAmp_cons (c : Nat) (rest : List Nat) :
    replaceAmp (c :: rest)
      = if c = 38 then 38 :: 45 :: replaceAmp rest else c :: replaceAmp rest := rfl

theorem splitOnAmp_cons_eq (c : Nat) (rest : List Nat) :
    splitOnAmp (c :: rest)
      = if c = 38 then [] :: splitOnAmp rest
        else
          match splitOnAmp rest with
          | h :: t => (c :: h) :: t
          | [] => [[c]] := rfl

theorem splitDash1_cons (c : Nat) (rest : List Nat) :
    splitDash1 (c :: rest)
      = if c = 45 then some ([], rest)
        else (splitDash1 rest).map (fun p => (c :: p.1, p.2)) := rfl

theorem decodeLoop_cons (e : List Nat) (rest : List (List Nat)) :
    decodeLoop (e :: rest)
      = match splitDash1 e with
        | none => none
        | some (u, a) =>
          match (if u = [] then some [38] else b64padanddecode u), decodeLoop rest with
          | some piece, some tl => some (piece ++ a ++ tl)
          | _, _ => none := rfl

theorem encFrom_cons (uni : List Nat) (c : Nat) (rest : List Nat) :
    encFrom uni (c :: rest)
      = if printableAscii c then flushUni uni ++ c :: encFrom [] rest
        else encFrom (uni ++ [c]) rest := rfl

theorem foldl_encStep_eq : ∀ (s uni out : List Nat),
    encFinish (s.foldl encStep (uni, out)) = out ++ encFrom uni s := by
  intro s
  induction s with
  | nil =>
      intro uni out
      show encFinish (uni, out) = out ++ flushUni uni
      unfold encFinish flushUni
      by_cases h : uni = []
      · simp [h]
      · simp [h]
  | cons c rest ih =>
      intro uni out
      show encFinish (rest.foldl encStep (encStep (uni, out) c)) = out ++ encFrom uni (c :: rest)
      rw [encFrom_cons]
      by_cases hp : printableAscii c = true
      · by_cases hu : uni = []
        · have hstep : encStep (uni, out) c = ([], out ++ [c]) := by
            unfold encStep
            rw [if_pos hp]
            simp [hu]
          rw [hstep, ih, if_pos hp]
          simp [hu, flushUni]
        · have hstep : encStep (uni, out) c = ([], out ++ encBlock uni ++ [c]) := by
            unfold encStep
            rw [if_pos hp]
            simp [hu]
          rw [hstep, ih, if_pos hp]
          simp [flushUni, hu]
      · have hstep : encStep (uni, out) c = (uni ++ [c], out) := by
          unfold encStep
          rw [if_neg hp]
        rw [hstep, ih, if_neg hp]

theorem imaputf7encode_eq (s : List Nat) :
    imaputf7encode s = encFrom [] (replaceAmp s) := by
  show encFinish ((replaceAmp s).foldl encStep ([], [])) = encFrom [] (replaceAmp s)
  rw [foldl_encStep_eq]
  simp

theorem replaceAmp_append : ∀ (a b : List Nat),
    replaceAmp (a ++ b) = replaceAmp a ++ replaceAmp b := by
  intro a b
  induction a with
  | nil => simp [replaceAmp]
  | cons c rest ih =>
      show replaceAmp (c :: (rest ++ b)) = replaceAmp (c :: rest) ++ replaceAmp b
      rw [replaceAmp_cons, replaceAmp_cons]
      by_cases h : c = 38
      · rw [if_pos h, if_pos h, ih]; simp
      · rw [if_neg h, if_neg h, ih]; simp

theorem replaceAmp_no38 : ∀ (a : List Nat), (∀ x ∈ a, x ≠ 38) → replaceAmp a = a := by
  intro a
  induction a with
  | nil => intro _; rfl
  | cons c rest ih =>
      intro h
      show replaceAmp (c :: rest) = c :: rest
      rw [replaceAmp_cons, if_neg (h c (by simp)), ih (fun x hx => h x (by simp [hx]))]

theorem encFrom_nonprintable : ∀ (np : List Nat) (uni rest : List Nat),
    (∀ x ∈ np, printableAscii x = false) →
    encFrom uni (np ++ rest) = encFrom (uni ++ np) rest := by
  intro np
  induction np with
  | nil => intro uni rest _; simp
  | cons c tl ih =>
      intro uni rest h
      show encFrom uni (c :: (tl ++ rest)) = encFrom (uni ++ c :: tl) rest
      rw [encFrom_cons, if_neg (by rw [h c (by simp)]; simp),
        ih (uni ++ [c]) rest (fun x hx => h x (by simp [hx]))]
      simp

theorem encFrom_flush_head (uni : List Nat) (d : Nat) (l : List Nat) (hu : uni ≠ [])
    (hd : printableAscii d = true) :
    encFrom uni (d :: l) = encBlock uni ++ encFrom [] (d :: l) := by
  rw [encFrom_cons, encFrom_cons, if_pos hd, if_pos hd]
  unfold flushUni
  rw [if_neg hu, if_pos rfl]
  simp

/-! ## Decoder-side lemmas -/

theorem splitOnAmp_ne_nil : ∀ l : List Nat, splitOnAmp l ≠ [] := by
  intro l
  induction l with
  | nil => simp [splitOnAmp]
  | cons c rest ih =>
      rw [splitOnAmp_cons_eq]
      by_cases h : c = 38
      · simp [h]
      · rw [if_neg h]
        cases hs : splitOnAmp rest with
        | nil => simp
        | cons a t => simp

theorem splitOnAmp_cons (c : Nat) (xs h' : List Nat) (t : List (List Nat)) (hc : c ≠ 38)
    (hs : splitOnAmp xs = h' :: t) : splitOnAmp (c :: xs) = (c :: h') :: t := by
  rw [splitOnAmp_cons_eq, if_neg hc, hs]

theorem splitOnAmp_amp (xs : List Nat) : splitOnAmp (38 :: xs) = [] :: splitOnAmp xs := by
  rw [splitOnAmp_cons_eq, if_pos rfl]

theorem splitOnAmp_append (a xs h' : List Nat) (t : List (List Nat))
    (ha : ∀ x ∈ a, x ≠ 38) (hs : splitOnAmp xs = h' :: t) :
    splitOnAmp (a ++ xs) = (a ++ h') :: t := by
  induction a with
  | nil => simpa using hs
  | cons c tl ih =>
      have hc : c ≠ 38 := ha c (by simp)
      have ih' := ih (fun x hx => ha x (by simp [hx]))
      rw [List.cons_append, splitOnAmp_cons c (tl ++ xs) (tl ++ h') t hc ih']
      simp

theorem splitDash1_no45 : ∀ (p h : List Nat), (∀ x ∈ p, x ≠ 45) →
    splitDash1 (p ++ 45 :: h) = some (p, h) := by
  intro p h
  induction p with
  | nil =>
      intro _
      show splitDash1 (45 :: h) = some ([], h)
      rw [splitDash1_cons, if_pos rfl]
  | cons c tl ih =>
      intro hp
      show splitDash1 (c :: (tl ++ 45 :: h)) = some (c :: tl, h)
      rw [splitDash1_cons, if_neg (hp c (by simp)), ih (fun x hx => hp x (by simp [hx]))]
      rfl

theorem imaputf7decode_cons (c : Nat) (xs : List Nat) (hc : c ≠ 38) :
    imaputf7decode (c :: xs) = (imaputf7decode xs).map (fun r => c :: r) := by
  obtain ⟨h', t, hs⟩ : ∃ h' t, splitOnAmp xs = h' :: t := by
    cases hq : splitOnAmp xs with
    | nil => exact absurd hq (splitOnAmp_ne_nil xs)
    | cons a b => exact ⟨a, b, rfl⟩
  unfold imaputf7decode
  rw [splitOnAmp_cons c xs h' t hc hs, hs]
  show (decodeLoop t).map (fun r => (c :: h') ++ r)
      = ((decodeLoop t).map (fun r => h' ++ r)).map (fun r => c :: r)
  cases decodeLoop t with
  | none => rfl
  | some v => rfl

theorem imaputf7decode_amp (xs : List Nat) :
    imaputf7decode (38 :: 45 :: xs) = (imaputf7decode xs).map (fun r => 38 :: r) := by
  obtain ⟨h', t, hs⟩ : ∃ h' t, splitOnAmp xs = h' :: t := by
    cases hq : splitOnAmp xs with
    | nil => exact absurd hq (splitOnAmp_ne_nil xs)
    | cons a b => exact ⟨a, b, rfl⟩
  unfold imaputf7decode
  rw [splitOnAmp_amp, splitOnAmp_cons 45 xs h' t (by decide) hs, hs]
  show (decodeLoop ((45 :: h') :: t)).map (fun r => [] ++ r)
      = ((decodeLoop t).map (fun r => h' ++ r)).map (fun r => 38 :: r)
  rw [decodeLoop_cons]
  have hd : splitDash1 (45 :: h') = some ([], h') := by
    rw [splitDash1_cons, if_pos rfl]
  rw [hd]
  cases decodeLoop t with
  | none => rfl
  | some v => rfl

theorem imaputf7decode_block (p run xs : List Nat) (hp : p ≠ [])
    (hp45 : ∀ x ∈ p, x ≠ 45) (hp38 : ∀ x ∈ p, x ≠ 38)
    (hdec : b64padanddecode p = some run) :
    imaputf7decode (38 :: (p ++ 45 :: xs)) = (imaputf7decode xs).map (fun r => run ++ r) := by
  obtain ⟨h', t, hs⟩ : ∃ h' t, splitOnAmp xs = h' :: t := by
    cases hq : splitOnAmp xs with
    | nil => exact absurd hq (splitOnAmp_ne_nil xs)
    | cons a b => exact ⟨a, b, rfl⟩
  unfold imaputf7decode
  rw [splitOnAmp_amp,
    splitOnAmp_append p (45 :: xs) (45 :: h') t hp38
      (splitOnAmp_cons 45 xs h' t (by decide) hs),
    hs]
  show (decodeLoop ((p ++ 45 :: h') :: t)).map (fun r => [] ++ r)
      = ((decodeLoop t).map (fun r => h' ++ r)).map (fun r => run ++ r)
  rw [decodeLoop_cons, splitDash1_no45 p h' hp45]
  show (match (if p = [] then some [38] else b64padanddecode p), decodeLoop t with
        | some piece, some tl => some (piece ++ h' ++ tl)
        | _, _ => none).map (fun r => [] ++ r)
      = ((decodeLoop t).map (fun r => h' ++ r)).map (fun r => run ++ r)
  rw [if_neg hp, hdec]
  cases decodeLoop t with
  | none => rfl
  | some v => simp

/-! ## The modified-UTF-7 round-trip (claim C6) -/

theorem encBlock_decodes (np : List Nat) (hne : np ≠ []) (hval : ∀ x ∈ np, ValidScalar x) :
    b64padanddecode (rstripEq (b64encodeP (utf16beEncode np))) = some np := by
  unfold b64padanddecode
  rw [pad_rstrip, b64_decode_encode _ (utf16beEncode_bytes_lt np hval)]
  show utf16beDecode (utf16beEncode np) = some np
  exact utf16be_roundtrip np hval

theorem encBlock_payload_props (np : List Nat) (hne : np ≠ []) :
    rstripEq (b64encodeP (utf16beEncode np)) ≠ [] ∧
    (∀ x ∈ rstripEq (b64encodeP (utf16beEncode np)), x ≠ 45) ∧
    (∀ x ∈ rstripEq (b64encodeP (utf16beEncode np)), x ≠ 38) := by
  refine ⟨?_, ?_, ?_⟩
  · cases np with
    | nil => exact absurd rfl hne
    | cons c cs =>
        cases henc : utf16beEncode (c :: cs) with
        | nil => exact absurd henc (utf16beEncode_ne_nil c cs)
        | cons b bs =>
            obtain ⟨i, t, hhead⟩ := b64encodeP_head b bs
            rw [hhead]
            exact rstripEq_ne_nil_of_mem (List.mem_cons_self _ _)
              (by simpa using b64alpha_ne61 i)
  · intro x hx
    rcases mem_b64encodeP _ x (mem_rstripEq hx) with h61 | ⟨i, hi⟩
    · omega
    · rw [hi]; exact b64alpha_ne45 i
  · intro x hx
    rcases mem_b64encodeP _ x (mem_rstripEq hx) with h61 | ⟨i, hi⟩
    · omega
    · rw [hi]; exact b64alpha_ne38 i

theorem decode_encFrom_block (np rest : List Nat) (hnpne : np ≠ [])
    (hvnp : ∀ x ∈ np, ValidScalar x)
    (hdec_rest : imaputf7decode (encFrom [] (replaceAmp rest)) = some rest)
    (hhead : rest = [] ∨ ∃ d l, rest = d :: l ∧ printableAscii d = true) :
    imaputf7decode (encFrom np (replaceAmp rest)) = some (np ++ rest) := by
  obtain ⟨hPne, hP45, hP38⟩ := encBlock_payload_props np hnpne
  have hPdec := encBlock_decodes np hnpne hvnp
  rcases hhead with hnil | ⟨d, l, hdl, hd⟩
  · subst hnil
    show imaputf7decode (encFrom np []) = some (np ++ [])
    have h1 : encFrom np [] = encBlock np := by
      show flushUni np = encBlock np
      unfold flushUni
      rw [if_neg hnpne]
    rw [h1]
    have h2 : encBlock np
        = 38 :: (rstripEq (b64encodeP (utf16beEncode np)) ++ 45 :: []) := rfl
    rw [h2, imaputf7decode_block _ np [] hPne hP45 hP38 hPdec]
    simp [imaputf7decode, splitOnAmp, decodeLoop]
  · have hre : ∃ e X, replaceAmp rest = e :: X ∧ printableAscii e = true := by
      subst hdl
      show ∃ e X, replaceAmp (d :: l) = e :: X ∧ printableAscii e = true
      rw [replaceAmp_cons]
      by_cases h38 : d = 38
      · rw [if_pos h38]; exact ⟨38, _, rfl, by decide⟩
      · rw [if_neg h38]; exact ⟨d, _, rfl, hd⟩
    obtain ⟨e, X, hre, hpe⟩ := hre
    rw [hre, encFrom_flush_head np e X hnpne hpe, ← hre]
    have h2 : encBlock np ++ encFrom [] (replaceAmp rest)
        = 38 :: (rstripEq (b64encodeP (utf16beEncode np)) ++
            45 :: encFrom [] (replaceAmp rest)) := by
      simp [encBlock]
    rw [h2, imaputf7decode_block _ np _ hPne hP45 hP38 hPdec, hdec_rest]
    rfl

theorem encFrom_nil_printable (c : Nat) (l : List Nat) (hc : printableAscii c = true) :
    encFrom [] (c :: l) = c :: encFrom [] l := by
  rw [encFrom_cons, if_pos hc]
  simp [flushUni]

theorem decode_encFrom : ∀ (n : Nat) (s : List Nat), s.length ≤ n →
    (∀ c ∈ s, ValidScalar c) →
    imaputf7decode (encFrom [] (replaceAmp s)) = some s := by
  intro n
  induction n with
  | zero =>
      intro s hlen _
      have hs : s = [] := List.eq_nil_of_length_eq_zero (Nat.le_zero.mp hlen)
      subst hs
      rfl
  | succ n ih =>
      intro s hlen hval
      cases s with
      | nil => rfl
      | cons c r =>
          have hvr : ∀ x ∈ r, ValidScalar x := fun x hx => hval x (by simp [hx])
          have hrlen : r.length ≤ n := by
            simp only [List.length_cons] at hlen
            omega
          by_cases hp : printableAscii c = true
          · by_cases hc38 : c = 38
            · subst hc38
              have h1 : replaceAmp (38 :: r) = 38 :: 45 :: replaceAmp r := by
                rw [replaceAmp_cons, if_pos rfl]
              rw [h1, encFrom_nil_printable 38 _ (by decide),
                encFrom_nil_printable 45 _ (by decide),
                imaputf7decode_amp, ih r hrlen hvr]
              rfl
            · have h1 : replaceAmp (c :: r) = c :: replaceAmp r := by
                rw [replaceAmp_cons, if_neg hc38]
              rw [h1, encFrom_nil_printable c _ hp,
                imaputf7decode_cons c _ hc38, ih r hrlen hvr]
              rfl
          · have hpf : printableAscii c = false := by
              cases hq : printableAscii c
              · rfl
              · exact absurd hq hp
            have hsplit : c :: r
                = (c :: r.takeWhile (fun x => !printableAscii x))
                  ++ r.dropWhile (fun x => !printableAscii x) := by
              rw [List.cons_append, List.takeWhile_append_dropWhile]
            have hnp : ∀ x ∈ c :: r.takeWhile (fun x => !printableAscii x),
                printableAscii x = false := by
              intro x hx
              rcases List.mem_cons.mp hx with hxc | hxt
              · rw [hxc]; exact hpf
              · have := List.mem_takeWhile_imp hxt
                simpa using this
            have hnp38 : ∀ x ∈ c :: r.takeWhile (fun x => !printableAscii x), x ≠ 38 := by
              intro x hx hx38
              have := hnp x hx
              rw [hx38] at this
              simp [printableAscii] at this
            have hvnp : ∀ x ∈ c :: r.takeWhile (fun x => !printableAscii x), ValidScalar x := by
              intro x hx
              rcases List.mem_cons.mp hx with hxc | hxt
              · rw [hxc]; exact hval c (by simp)
              · exact hvr x ((List.takeWhile_sublist _).subset hxt)
            have hvrest : ∀ x ∈ r.dropWhile (fun x => !printableAscii x), ValidScalar x :=
              fun x hx => hvr x ((List.dropWhile_sublist _).subset hx)
            have hrestlen : (r.dropWhile (fun x => !printableAscii x)).length ≤ n := by
              have := (List.dropWhile_sublist (l := r) (fun x => !printableAscii x)).length_le
              omega
            have h1 : replaceAmp (c :: r)
                = (c :: r.takeWhile (fun x => !printableAscii x))
                  ++ replaceAmp (r.dropWhile (fun x => !printableAscii x)) := by
              conv_lhs => rw [hsplit]
              rw [replaceAmp_append, replaceAmp_no38 _ hnp38]
            have hhead : r.dropWhile (fun x => !printableAscii x) = []
                ∨ ∃ d l, r.dropWhile (fun x => !printableAscii x) = d :: l
                    ∧ printableAscii d = true := by
              cases hq : r.dropWhile (fun x => !printableAscii x) with
              | nil => exact Or.inl rfl
              | cons d l =>
                  refine Or.inr ⟨d, l, rfl, ?_⟩
                  have := List.head_dropWhile_not (fun x => !printableAscii x) r
                  rw [hq] at this
                  simpa using this (by simp)
            have hblock := decode_encFrom_block (c :: r.takeWhile (fun x => !printableAscii x))
              (r.dropWhile (fun x => !printableAscii x)) (by simp) hvnp
              (ih _ hrestlen hvrest) hhead
            rw [h1, encFrom_nonprintable _ [] _ hnp, List.nil_append, hblock, ← hsplit]


/-- C6: for every string `s` over printable ASCII plus arbitrary Unicode
(every list of Unicode scalar values), decoding the modified-UTF-7 encoding
of `s` returns `s`: `imaputf7decode (imaputf7encode s) = some s`. -/
theorem claim_C6_utf7_roundtrip (s : List Nat) (h : ∀ c ∈ s, ValidScalar c) :
    imaputf7decode (imaputf7encode s) = some s := by
  rw [imaputf7encode_eq]
  exact decode_encFrom s.length s le_rfl h

/-- Witness for C6 at a concrete folder name mixing printable ASCII
(with a literal `&`), Latin-1, CJK, an astral-plane scalar and a control
character. -/
theorem claim_C6_utf7_roundtrip_witness :
    (∀ c ∈ ([66, 111, 238, 116, 101, 32, 38, 32, 20320, 22909, 128512, 9, 127] : List Nat),
      ValidScalar c) ∧
    imaputf7decode (imaputf7encode
        ([66, 111, 238, 116, 101, 32, 38, 32, 20320, 22909, 128512, 9, 127] : List Nat))
      = some ([66, 111, 238, 116, 101, 32, 38, 32, 20320, 22909, 128512, 9, 127] : List Nat) :=
  ⟨by decide, claim_C6_utf7_roundtrip _ (by decide)⟩


/-- C2: the claim says `"2012-04 to 2012-10"` yields since=2012-04-01 and
before=2012-10-31, computed with the correct days-in-month.  The code instead
raises `IndexError`: line 258 evaluates `calendar.monthrange(y2, m2)[2]`, but
`monthrange` returns a 2-tuple (the parallel sites at lines 228 and 241
correctly use `[1]`).  The third conjunct shows that the in-range index 1
does give the 31 days of October 2012 that the claim expects. -/
theorem claim_C2_monthrange_index_error :
    parse_date (strCodes "2012-04 to 2012-10") "imap" = .error .indexError ∧
    parse_date (strCodes "2012-04 to 2012-10") "ymd" = .error .indexError ∧
    (monthrange 2012 10).bind (fun mr => pyIndex mr 1) = .ok 31 := by
  refine ⟨by decide, by decide, by decide⟩

/-! ## Helper lemmas about the extract pipeline -/

theorem isPrefixOf_append_self (n m : List Char) : n.isPrefixOf (n ++ m) = true := by
  induction n with
  | nil => simp [List.isPrefixOf]
  | cons c n2 ih => simp [List.isPrefixOf, ih]

theorem listInfix_append_self (n m : List Char) : listInfix n (n ++ m) = true := by
  cases n with
  | nil =>
      cases m with
      | nil => simp [listInfix, List.isPrefixOf]
      | cons c r => simp [listInfix, List.isPrefixOf]
  | cons a n2 =>
      show listInfix (a :: n2) (a :: (n2 ++ m)) = true
      unfold listInfix
      have h := isPrefixOf_append_self (a :: n2) m
      rw [List.cons_append] at h
      rw [h]
      simp

theorem strContains_append_left (a b : String) : strContains (a ++ b) a = true := by
  unfold strContains
  have h : (a ++ b).toList = a.toList ++ b.toList := by
    show (a ++ b).data = a.data ++ b.data
    exact String.data_append a b
  rw [h]
  exact listInfix_append_self a.toList b.toList

theorem extractLoop_cons_eq (cfg : Config) (dates : DatesVar) (appendStatus now : String)
    (fs : List String) (m : Mail) (rest : List Mail) :
    extractLoop cfg dates appendStatus now fs (m :: rest)
      = (do
          let r2 ← processMail cfg dates appendStatus now fs m
          let rs ← extractLoop cfg dates appendStatus now r2.fs rest
          Except.ok (r2 :: rs)) := rfl

theorem extractLoop_cons (cfg : Config) (dates : DatesVar) (appendStatus now : String)
    (fs : List String) (m : Mail) (rest : List Mail) (r : MailResult)
    (h : processMail cfg dates appendStatus now fs m = .ok r) :
    extractLoop cfg dates appendStatus now fs (m :: rest)
      = (extractLoop cfg dates appendStatus now r.fs rest).map (fun rs => r :: rs) := by
  rw [extractLoop_cons_eq, h]
  show (extractLoop cfg dates appendStatus now r.fs rest) >>= (fun rs => Except.ok (r :: rs)) = _
  cases extractLoop cfg dates appendStatus now r.fs rest with
  | error e => rfl
  | ok rs => rfl

theorem replaceTransaction_no_store (cfg : Config) (appendStatus : String) (isFlagged : Bool)
    (st : WalkState) (hfail : appendStatus ≠ "OK") :
    (replaceTransaction cfg appendStatus isFlagged st).storeCalled = false := by
  unfold replaceTransaction
  split_ifs <;> simp_all

theorem processMail_cases (cfg : Config) (dates : DatesVar) (appendStatus now : String)
    (fs : List String) (mail : Mail) (r : MailResult)
    (hok : processMail cfg dates appendStatus now fs mail = .ok r) :
    r = skippedResult fs ∨
    ∃ st, walkMail cfg mail.mailDate (mail.flags.contains "\\Flagged") now
        (initWalkState fs) mail.walkParts = .ok st ∧
      r = replaceTransaction cfg appendStatus (mail.flags.contains "\\Flagged") st := by
  unfold processMail at hok
  cases hdf : dateFilter dates (strftimeDate "%Y-%m-%d" mail.mailDate) with
  | error e => simp [hdf, Bind.bind, Except.bind] at hok
  | ok b =>
      simp only [hdf, Bind.bind, Except.bind] at hok
      split at hok
      · left
        simp only [pure, Except.pure, Except.ok.injEq] at hok
        exact hok.symm
      · split at hok
        · left
          simp only [pure, Except.pure, Except.ok.injEq] at hok
          exact hok.symm
        · cases hwm : walkMail cfg mail.mailDate (mail.flags.contains "\\Flagged") now
              (initWalkState fs) mail.walkParts with
          | error e => rw [hwm] at hok; simp at hok
          | ok st =>
              rw [hwm] at hok
              simp only [pure, Except.pure, Except.ok.injEq] at hok
              exact Or.inr ⟨st, rfl, hok.symm⟩

theorem processPart_partNb (cfg : Config) (mailDate : PyDate) (isFlagged : Bool) (now : String)
    (st : WalkState) (part : Part) (st' : WalkState)
    (h : processPart cfg mailDate isFlagged now st part = .ok st') :
    st'.partNb = if reachesAttachmentDecision st part = true then st.partNb + 1
      else st.partNb := by
  unfold reachesAttachmentDecision
  unfold processPart at h
  by_cases hmp : strStartsWith part.contentType "multipart/" = true
  · rw [if_pos hmp] at h
    rw [if_pos hmp, if_neg Bool.false_ne_true]
    split at h <;> (simp only [Except.ok.injEq] at h; rw [← h])
  · rw [if_neg hmp] at h
    rw [if_neg hmp]
    by_cases halt : st.hasAlternative = true ∧ st.nbAlternative < 2 ∧
        ((part.contentType == "text/plain") = true ∨ (part.contentType == "text/html") = true)
    · rw [if_pos halt] at h
      rw [if_pos halt, if_neg Bool.false_ne_true]
      simp only [Except.ok.injEq] at h
      rw [← h]
    · rw [if_neg halt] at h
      rw [if_neg halt]
      by_cases hatt : isAttachmentDisposition part = true
      · rw [if_neg (by rw [hatt]; simp)] at h
        rw [hatt, if_pos rfl]
        by_cases hmark : strContains (getHeaderD part.headers "X-Mozilla-Altered" "")
            "AttachmentDetached" = true
        · rw [if_pos hmark] at h
          simp only [Except.ok.injEq] at h
          rw [← h]
        · rw [if_neg hmark] at h
          cases hdec : decodeAttachmentContent part with
          | error e =>
              simp only [hdec] at h
              cases e with
              | binasciiError =>
                  simp only [Except.ok.injEq] at h
                  rw [← h]
              | runtimeWarning => simp at h
              | valueError => simp at h
              | typeError => simp at h
              | indexError => simp at h
              | keyError => simp at h
              | nameError => simp at h
              | illegalMonth => simp at h
          | ok content =>
              simp only [hdec] at h
              by_cases hsz : content.length < cfg.maxSize
              · rw [if_pos hsz] at h
                simp only [Except.ok.injEq] at h
                rw [← h]
              · rw [if_neg hsz] at h
                by_cases htb2 : cfg.thunderbirdMode = true ∧
                    ((cfg.flaggedAction == "detach") = true ∨ isFlagged = false)
                · rw [if_pos htb2] at h
                  simp only [Bind.bind, Except.bind] at h
                  split at h
                  · cases h
                  · simp only [Except.ok.injEq] at h
                    rw [← h]
                · rw [if_neg htb2] at h
                  simp only [Except.ok.injEq] at h
                  rw [← h]
      · have hatf : isAttachmentDisposition part = false := by
          cases hq : isAttachmentDisposition part
          · rfl
          · exact absurd hq hatt
        rw [if_pos hatf] at h
        rw [hatf, if_neg Bool.false_ne_true]
        simp only [Except.ok.injEq] at h
        rw [← h]

theorem processPart_unnamed_extract (cfg : Config) (mailDate : PyDate) (isFlagged : Bool)
    (now : String) (st : WalkState) (part : Part) (content : List Nat)
    (hmp : strStartsWith part.contentType "multipart/" = false)
    (htp : part.contentType ≠ "text/plain") (hth : part.contentType ≠ "text/html")
    (hdisp : isAttachmentDisposition part = true)
    (hfn : part.filename = none)
    (hmark : strContains (getHeaderD part.headers "X-Mozilla-Altered" "")
        "AttachmentDetached" = false)
    (hdec : decodeAttachmentContent part = .ok content)
    (hsize : ¬ content.length < cfg.maxSize)
    (htb : cfg.thunderbirdMode = false)
    (hdr : cfg.dryRun = false) :
    processPart cfg mailDate isFlagged now st part
      = .ok { st with
          partNb := st.partNb + 1
          nbExtraction := st.nbExtraction + 1
          fs := st.fs ++ [findFreeName st.fs (strftimeDate "%Y-%m-%d" mailDate ++ " - "
            ++ ("part." ++ toString (st.partNb + 1)))]
          filesWritten := st.filesWritten ++ [findFreeName st.fs
            (strftimeDate "%Y-%m-%d" mailDate ++ " - "
              ++ ("part." ++ toString (st.partNb + 1)))] } := by
  have h1 : (part.contentType == "text/plain") = false := beq_eq_false_iff_ne.mpr htp
  have h2 : (part.contentType == "text/html") = false := beq_eq_false_iff_ne.mpr hth
  simp only [processPart]
  rw [if_neg (by rw [hmp]; exact Bool.false_ne_true)]
  rw [if_neg (by rw [h1, h2]; rintro ⟨-, -, h | h⟩ <;> exact Bool.false_ne_true h)]
  rw [if_neg (by rw [hdisp]; simp)]
  rw [if_neg (by rw [hmark]; simp)]
  simp only [hdec]
  rw [if_neg hsize]
  rw [if_neg (by rw [htb]; rintro ⟨h, -⟩; exact Bool.false_ne_true h)]
  simp only [hfn, hdr]
  simp

theorem collisionLoop_free (fs : List String) : ∀ (fuel : Nat) (filename : String) (idx : Nat),
    (∃ j, j < fuel ∧ iterRename filename idx j ∉ fs) →
    collisionLoop fs fuel filename idx ∉ fs := by
  intro fuel
  induction fuel with
  | zero =>
      intro filename idx ⟨j, hj, _⟩
      omega
  | succ n ih =>
      intro filename idx ⟨j, hj, hfree⟩
      unfold collisionLoop
      by_cases hin : filename ∈ fs
      · rw [if_pos hin]
        apply ih
        cases j with
        | zero => exact absurd hin hfree
        | succ j2 => exact ⟨j2, by omega, hfree⟩
      · rw [if_neg hin]
        exact hin

theorem findFreeName_free (fs : List String) (base : String)
    (h : ∃ j, j ≤ fs.length ∧ iterRename base 0 j ∉ fs) :
    findFreeName fs base ∉ fs := by
  obtain ⟨j, hj, hfree⟩ := h
  exact collisionLoop_free fs (fs.length + 1) base 0 ⟨j, by omega, hfree⟩

/-! ## The claims -/

/-- C1: for every processed message with at least one extraction, if the
APPEND of the rebuilt message does not return success, no STORE of the
`\Deleted` flag is issued for the original message, and the per-message
loop continues with the next candidate (the loop result is the current
result consed onto the results of the remaining candidates). -/
theorem claim_C1_append_failure_no_delete (cfg : Config) (dates : DatesVar)
    (appendStatus now : String) (fs : List String) (mail : Mail) (rest : List Mail)
    (r : MailResult) (hfail : appendStatus ≠ "OK")
    (hok : processMail cfg dates appendStatus now fs mail = .ok r)
    (hext : 1 ≤ r.nbExtraction) (happ : r.appendCalled = true) :
    r.storeCalled = false ∧
    extractLoop cfg dates appendStatus now fs (mail :: rest)
      = (extractLoop cfg dates appendStatus now r.fs rest).map (fun rs => r :: rs) := by
  refine ⟨?_, extractLoop_cons cfg dates appendStatus now fs mail rest r hok⟩
  rcases processMail_cases cfg dates appendStatus now fs mail r hok with hskip | ⟨st, hwm, htr⟩
  · rw [hskip]; rfl
  · rw [htr]
    exact replaceTransaction_no_store cfg appendStatus _ st hfail

/-- Witness for C1: the fixture message has one extraction; with the server
answering `NO` to the APPEND, the original is not deleted and the loop
continues. -/
theorem claim_C1_append_failure_no_delete_witness :
    ("NO" : String) ≠ "OK" ∧
    processMail fixtureCfg fixtureDates "NO" "now" [] fixtureMail = .ok fixtureC1Result ∧
    1 ≤ fixtureC1Result.nbExtraction ∧ fixtureC1Result.appendCalled = true ∧
    (fixtureC1Result.storeCalled = false ∧
      extractLoop fixtureCfg fixtureDates "NO" "now" [] (fixtureMail :: [])
        = (extractLoop fixtureCfg fixtureDates "NO" "now" fixtureC1Result.fs []).map
            (fun rs => fixtureC1Result :: rs)) :=
  ⟨by decide, by decide, by decide, by decide,
    claim_C1_append_failure_no_delete fixtureCfg fixtureDates "NO" "now" [] fixtureMail []
      fixtureC1Result (by decide) (by decide) (by decide) (by decide)⟩

/-- C3 counterexample: a part with attachment disposition carrying the
`X-Mozilla-Altered: AttachmentDetached` marker is *not* copied into the
rebuilt message: the walk state after processing it has `newMailParts = []`
(the source line 511 `continue`s without `new_mail.attach(part)`), refuting
the claim's "copied unchanged into the rebuilt message".  The part is indeed
not re-extracted (`nbExtraction = 0`, no file written). -/
theorem claim_C3_counterexample :
    processPart fixtureCfg ⟨2020, 1, 15⟩ false "now" (initWalkState []) fixtureDetachedPart
      = .ok { hasAlternative := false, nbAlternative := 0, nbExtraction := 0, partNb := 2,
              newMailParts := [], fs := [], filesWritten := [] } := by decide

/-- C3 (amended): an attachment-disposition part (not a multipart container,
not a text/plain or text/html leaf) that carries the "previously detached"
marker is never re-extracted — no file is written, the extraction count is
not incremented — and it is dropped from (not copied into) the rebuilt
message: the only state change is the part counter. -/
theorem claim_C3_detached_never_reextracted (cfg : Config) (mailDate : PyDate)
    (isFlagged : Bool) (now : String) (st : WalkState) (part : Part)
    (hmp : strStartsWith part.contentType "multipart/" = false)
    (htp : part.contentType ≠ "text/plain") (hth : part.contentType ≠ "text/html")
    (hdisp : isAttachmentDisposition part = true)
    (hmark : strContains (getHeaderD part.headers "X-Mozilla-Altered" "")
        "AttachmentDetached" = true) :
    processPart cfg mailDate isFlagged now st part = .ok { st with partNb := st.partNb + 1 } := by
  have h1 : (part.contentType == "text/plain") = false := beq_eq_false_iff_ne.mpr htp
  have h2 : (part.contentType == "text/html") = false := beq_eq_false_iff_ne.mpr hth
  simp only [processPart]
  rw [if_neg (by rw [hmp]; exact Bool.false_ne_true)]
  rw [if_neg (by rw [h1, h2]; rintro ⟨-, -, h | h⟩ <;> exact Bool.false_ne_true h)]
  rw [if_neg (by rw [hdisp]; simp)]
  rw [if_pos hmark]

/-- Witness for the amended C3 at the fixture detached part. -/
theorem claim_C3_detached_never_reextracted_witness :
    strStartsWith fixtureDetachedPart.contentType "multipart/" = false ∧
    fixtureDetachedPart.contentType ≠ "text/plain" ∧
    fixtureDetachedPart.contentType ≠ "text/html" ∧
    isAttachmentDisposition fixtureDetachedPart = true ∧
    strContains (getHeaderD fixtureDetachedPart.headers "X-Mozilla-Altered" "")
        "AttachmentDetached" = true ∧
    processPart fixtureCfg ⟨2020, 1, 15⟩ false "now" (initWalkState []) fixtureDetachedPart
      = .ok { initWalkState [] with partNb := (initWalkState []).partNb + 1 } :=
  ⟨by decide, by decide, by decide, by decide, by decide,
    claim_C3_detached_never_reextracted fixtureCfg ⟨2020, 1, 15⟩ false "now"
      (initWalkState []) fixtureDetachedPart (by decide) (by decide) (by decide)
      (by decide) (by decide)⟩

/-- C4: the claim (and the program's own `--max-size` help text, "extract
attachments *bigger* than this size") says parts at or below the threshold
are copied unchanged and never extracted.  The code uses a strict `<` at
line 528, so a part whose decoded size *equals* the threshold (100 bytes
here) is extracted — a file is written, the extraction count is 1 and the
part is dropped from the rebuilt message — while a 99-byte part is copied
unchanged as the claim says. -/
theorem claim_C4_threshold_boundary :
    (decodeAttachmentContent fixtureAtThresholdPart = .ok (List.replicate 100 65) ∧
      (List.replicate 100 65).length = fixtureCfg.maxSize) ∧
    walkMail fixtureCfg ⟨2020, 1, 15⟩ false "now" (initWalkState []) [fixtureAtThresholdPart]
      = .ok { hasAlternative := false, nbAlternative := 0, nbExtraction := 1, partNb := 2,
              newMailParts := [], fs := ["2020-01-15 - a.pdf"],
              filesWritten := ["2020-01-15 - a.pdf"] } ∧
    walkMail fixtureCfg ⟨2020, 1, 15⟩ false "now" (initWalkState []) [fixtureBelowPart]
      = .ok { hasAlternative := false, nbAlternative := 0, nbExtraction := 0, partNb := 2,
              newMailParts := [fixtureBelowPart], fs := [], filesWritten := [] } := by
  refine ⟨⟨by decide, by decide⟩, by decide, by decide⟩

/-- C5 counterexample: with Thunderbird mode off, a message in what the
claim calls replacement mode (unflagged so detach applies, not
extract-only, not dry-run) has its extracted part replaced by *nothing*:
the rebuilt message holds only the text part, no stub, and the original is
appended and deleted. -/
theorem claim_C5_counterexample :
    fixtureCfg.thunderbirdMode = false ∧ fixtureCfg.extractOnly = false ∧
    fixtureCfg.dryRun = false ∧ fixtureMail.flags = [] ∧
    processMail fixtureCfg fixtureDates "OK" "now" [] fixtureMail
      = .ok { newMailParts := [fixtureTextPart], nbExtraction := 1,
              filesWritten := ["2020-01-15 - a.pdf"], fs := ["2020-01-15 - a.pdf"],
              appendCalled := true, storeCalled := true, skipped := false } := by
  refine ⟨rfl, rfl, rfl, rfl, by decide⟩

/-- C5 (amended): when Thunderbird mode is on and detach applies per the
flagged-message policy, an extracted part (one that reaches the attachment
decision, is not marked already-detached, decodes, is at or above the
threshold, and declares a Content-Transfer-Encoding header, so that the
stub's `replace_header` succeeds) is replaced in the rebuilt message by a
stub whose body restates the original part's headers, which carries the
`X-Mozilla-External-Attachment-URL` header pointing at the extracted
file's location, and which carries the `X-Mozilla-Altered`
"AttachmentDetached" marker. -/
theorem claim_C5_thunderbird_stub (cfg : Config) (mailDate : PyDate) (isFlagged : Bool)
    (now : String) (st : WalkState) (part : Part) (content : List Nat)
    (hs2 : List (String × String))
    (hmp : strStartsWith part.contentType "multipart/" = false)
    (htp : part.contentType ≠ "text/plain") (hth : part.contentType ≠ "text/html")
    (hdisp : isAttachmentDisposition part = true)
    (hmark : strContains (getHeaderD part.headers "X-Mozilla-Altered" "")
        "AttachmentDetached" = false)
    (hdec : decodeAttachmentContent part = .ok content)
    (hsize : ¬ content.length < cfg.maxSize)
    (htb : cfg.thunderbirdMode = true)
    (hpolicy : cfg.flaggedAction = "detach" ∨ isFlagged = false)
    (hcte : replaceHeader part.headers "Content-Transfer-Encoding" "" = .ok hs2) :
    ∃ stub fname,
      fname = findFreeName st.fs (strftimeDate "%Y-%m-%d" mailDate ++ " - "
        ++ (match part.filename with
            | none => "part." ++ toString (st.partNb + 1)
            | some f => f)) ∧
      processPart cfg mailDate isFlagged now st part
        = .ok { st with
            partNb := st.partNb + 1
            nbExtraction := st.nbExtraction + 1
            fs := if cfg.dryRun = false then st.fs ++ [fname] else st.fs
            filesWritten := if cfg.dryRun = false then st.filesWritten ++ [fname]
              else st.filesWritten
            newMailParts := st.newMailParts ++ [stub] } ∧
      stub.payload = strCodes
        ("You deleted an attachment from this message. The original MIME headers for the attachment were:\n"
          ++ headersStr part.headers) ∧
      ("X-Mozilla-External-Attachment-URL",
        "file:///" ++ backslashToSlash cfg.extractDir ++ "/" ++ fname) ∈ stub.headers ∧
      ("X-Mozilla-Altered", "AttachmentDetached; date=" ++ now) ∈ stub.headers ∧
      strContains ("AttachmentDetached; date=" ++ now) "AttachmentDetached" = true := by
  have h1 : (part.contentType == "text/plain") = false := beq_eq_false_iff_ne.mpr htp
  have h2 : (part.contentType == "text/html") = false := beq_eq_false_iff_ne.mpr hth
  refine ⟨{ contentType := part.contentType, contentDisposition := part.contentDisposition,
            filename := part.filename,
            payload := strCodes
              ("You deleted an attachment from this message. The original MIME headers for the attachment were:\n"
                ++ headersStr part.headers),
            headers := hs2 ++ [("X-Mozilla-External-Attachment-URL",
                "file:///" ++ backslashToSlash cfg.extractDir ++ "/"
                  ++ findFreeName st.fs (strftimeDate "%Y-%m-%d" mailDate ++ " - "
                    ++ (match part.filename with
                        | none => "part." ++ toString (st.partNb + 1)
                        | some f => f))),
              ("X-Mozilla-Altered", "AttachmentDetached; date=" ++ now)] },
          _, rfl, ?_, rfl, ?_, ?_, ?_⟩
  · simp only [processPart]
    rw [if_neg (by rw [hmp]; exact Bool.false_ne_true)]
    rw [if_neg (by rw [h1, h2]; rintro ⟨-, -, h | h⟩ <;> exact Bool.false_ne_true h)]
    rw [if_neg (by rw [hdisp]; simp)]
    rw [if_neg (by rw [hmark]; simp)]
    simp only [hdec]
    rw [if_neg hsize]
    rw [if_pos ⟨htb, by rcases hpolicy with h | h
                        · exact Or.inl (by simp [h])
                        · exact Or.inr h⟩]
    simp only [mkStubPart, hcte, Bind.bind, Except.bind, pure, Except.pure]
  · exact List.mem_append_right _ (by simp)
  · exact List.mem_append_right _ (by simp)
  · rw [show ("AttachmentDetached; date=" : String) = "AttachmentDetached" ++ "; date=" from rfl,
      String.append_assoc]
    exact strContains_append_left "AttachmentDetached" ("; date=" ++ now)

/-- Witness for the amended C5 at the fixture big attachment with
Thunderbird mode on. -/
theorem claim_C5_thunderbird_stub_witness :
    strStartsWith fixtureBigPart.contentType "multipart/" = false ∧
    fixtureBigPart.contentType ≠ "text/plain" ∧ fixtureBigPart.contentType ≠ "text/html" ∧
    isAttachmentDisposition fixtureBigPart = true ∧
    strContains (getHeaderD fixtureBigPart.headers "X-Mozilla-Altered" "")
        "AttachmentDetached" = false ∧
    decodeAttachmentContent fixtureBigPart = .ok (List.replicate 200 65) ∧
    ¬ (List.replicate 200 65).length < fixtureCfgThunderbird.maxSize ∧
    fixtureCfgThunderbird.thunderbirdMode = true ∧
    replaceHeader fixtureBigPart.headers "Content-Transfer-Encoding" ""
      = .ok [("Content-Type", "application/pdf"), ("Content-Transfer-Encoding", ""),
             ("Content-Disposition", "attachment; filename=a.pdf")] ∧
    (∃ stub fname,
      fname = findFreeName (initWalkState []).fs
        (strftimeDate "%Y-%m-%d" ⟨2020, 1, 15⟩ ++ " - "
          ++ (match fixtureBigPart.filename with
              | none => "part." ++ toString ((initWalkState []).partNb + 1)
              | some f => f)) ∧
      processPart fixtureCfgThunderbird ⟨2020, 1, 15⟩ false "now" (initWalkState [])
          fixtureBigPart
        = .ok { initWalkState [] with
            partNb := (initWalkState []).partNb + 1
            nbExtraction := (initWalkState []).nbExtraction + 1
            fs := if fixtureCfgThunderbird.dryRun = false
              then (initWalkState []).fs ++ [fname] else (initWalkState []).fs
            filesWritten := if fixtureCfgThunderbird.dryRun = false
              then (initWalkState []).filesWritten ++ [fname]
              else (initWalkState []).filesWritten
            newMailParts := (initWalkState []).newMailParts ++ [stub] } ∧
      stub.payload = strCodes
        ("You deleted an attachment from this message. The original MIME headers for the attachment were:\n"
          ++ headersStr fixtureBigPart.headers) ∧
      ("X-Mozilla-External-Attachment-URL",
        "file:///" ++ backslashToSlash fixtureCfgThunderbird.extractDir ++ "/" ++ fname)
        ∈ stub.headers ∧
      ("X-Mozilla-Altered", "AttachmentDetached; date=" ++ "now") ∈ stub.headers ∧
      strContains ("AttachmentDetached; date=" ++ "now") "AttachmentDetached" = true) :=
  ⟨by decide, by decide, by decide, by decide, by decide, by decide, by decide, rfl, by decide,
    claim_C5_thunderbird_stub fixtureCfgThunderbird ⟨2020, 1, 15⟩ false "now"
      (initWalkState []) fixtureBigPart (List.replicate 200 65)
      [("Content-Type", "application/pdf"), ("Content-Transfer-Encoding", ""),
       ("Content-Disposition", "attachment; filename=a.pdf")]
      (by decide) (by decide) (by decide) (by decide) (by decide) (by decide) (by decide)
      rfl (Or.inr rfl) (by decide)⟩

/-- C7: a flagged message under `flagged_action = skip` is skipped before any
MIME walking — the result does not depend on `walkParts`, the extraction
count is 0, no file is written, the directory contents are untouched, and
neither APPEND nor STORE is issued. -/
theorem claim_C7_flagged_skip (cfg : Config) (dates : DatesVar) (appendStatus now : String)
    (fs : List String) (mail : Mail)
    (hdate : dateFilter dates (strftimeDate "%Y-%m-%d" mail.mailDate) = .ok true)
    (hflag : mail.flags.contains "\\Flagged" = true)
    (hact : cfg.flaggedAction = "skip") :
    processMail cfg dates appendStatus now fs mail
      = .ok { newMailParts := [], nbExtraction := 0, filesWritten := [], fs := fs,
              appendCalled := false, storeCalled := false, skipped := true } := by
  unfold processMail
  simp only [hdate, Bind.bind, Except.bind]
  rw [if_neg (by simp)]
  rw [if_pos ⟨hflag, by simp [hact]⟩]
  rfl

/-- Witness for C7 at the flagged fixture message (which carries a big
attachment that would otherwise be extracted). -/
theorem claim_C7_flagged_skip_witness :
    dateFilter fixtureDates
        (strftimeDate "%Y-%m-%d" fixtureFlaggedMail.mailDate) = .ok true ∧
    fixtureFlaggedMail.flags.contains "\\Flagged" = true ∧
    fixtureCfg.flaggedAction = "skip" ∧
    processMail fixtureCfg fixtureDates "OK" "now" [] fixtureFlaggedMail
      = .ok { newMailParts := [], nbExtraction := 0, filesWritten := [], fs := [],
              appendCalled := false, storeCalled := false, skipped := true } :=
  ⟨by decide, by decide, rfl,
    claim_C7_flagged_skip fixtureCfg fixtureDates "OK" "now" [] fixtureFlaggedMail
      (by decide) (by decide) rfl⟩

/-- C8: filename collision handling.  First conjunct: two same-day,
same-named 200-byte attachments in one message produce
`2020-01-15 - a.pdf` then `2020-01-15 (01) - a.pdf`.  Second conjunct: the
collision loop retries until a free name is found — whenever some candidate
in the rename chain is free within the fuel bound, the chosen name does not
collide with an existing file. -/
theorem claim_C8_collision_naming :
    walkMail fixtureCfg ⟨2020, 1, 15⟩ false "now" (initWalkState [])
        [fixtureBigPart, fixtureBigPart]
      = .ok { hasAlternative := false, nbAlternative := 0, nbExtraction := 2, partNb := 3,
              newMailParts := [],
              fs := ["2020-01-15 - a.pdf", "2020-01-15 (01) - a.pdf"],
              filesWritten := ["2020-01-15 - a.pdf", "2020-01-15 (01) - a.pdf"] } ∧
    ∀ (fs : List String) (base : String),
      (∃ j, j ≤ fs.length ∧ iterRename base 0 j ∉ fs) →
      findFreeName fs base ∉ fs :=
  ⟨by decide, findFreeName_free⟩

/-- Witness for C8's second conjunct: with `2020-01-15 - a.pdf` already on
disk, the first renamed candidate `2020-01-15 (01) - a.pdf` is free and is
chosen. -/
theorem claim_C8_collision_naming_witness :
    (∃ j, j ≤ (["2020-01-15 - a.pdf"] : List String).length ∧
      iterRename "2020-01-15 - a.pdf" 0 j ∉ (["2020-01-15 - a.pdf"] : List String)) ∧
    findFreeName ["2020-01-15 - a.pdf"] "2020-01-15 - a.pdf" ∉
      (["2020-01-15 - a.pdf"] : List String) :=
  ⟨⟨1, by decide, by decide⟩,
    claim_C8_collision_naming.2 ["2020-01-15 - a.pdf"] "2020-01-15 - a.pdf"
      ⟨1, by decide, by decide⟩⟩

/-- C9: with `fetch_all` and no date definition, the local variable `dates`
is never assigned (it is only set in the `elif date_def:` branch at line
305), so as soon as one attachment-bearing message reaches the date
post-filter at line 445 the run aborts with `UnboundLocalError`. -/
theorem claim_C9_unbound_dates (cfg : Config) (appendStatus now : String)
    (fs : List String) (m : Mail) (mails : List Mail) :
    extractRun cfg none true appendStatus now fs (m :: mails) = .error .nameError := rfl

/-- C10 counterexample: in the message
`[multipart/alternative, text/plain, text/plain-attachment, unnamed attachment]`
the unnamed attachment is the second attachment-disposition part in document
order (`countP` of the prefix is 1), so the claim's counting predicts the
synthetic name `part.3`; the code assigns `part.2`, because the preceding
text/plain attachment-disposition part was swallowed by the
multipart/alternative leaf skip and never counted. -/
theorem claim_C10_counterexample :
    ([fixtureAltPart, fixtureTextPart, fixtureTextAttach].countP
        (fun p => isAttachmentDisposition p) = 1) ∧
    isAttachmentDisposition fixtureUnnamedPart = true ∧
    fixtureUnnamedPart.filename = none ∧
    walkMail fixtureCfg ⟨2020, 1, 15⟩ false "now" (initWalkState [])
        [fixtureAltPart, fixtureTextPart, fixtureTextAttach, fixtureUnnamedPart]
      = .ok { hasAlternative := true, nbAlternative := 2, nbExtraction := 1, partNb := 2,
              newMailParts := [fixtureAltPart], fs := ["2020-01-15 - part.2"],
              filesWritten := ["2020-01-15 - part.2"] } := by
  refine ⟨by decide, by decide, by decide, by decide⟩

/-- C10 (amended): the synthetic-filename counter starts at 1 and is
incremented exactly when a part reaches the attachment decision
(attachment-disposition parts that are not swallowed by the
multipart/alternative leaf skip — not "all attachment-disposition parts" as
the claim counts), before it is first consulted; an unnamed candidate
processed with counter value `k` is extracted to `part.(k+1)`.  In
particular the first unnamed attachment candidate is named `part.2`,
never `part.1`. -/
theorem claim_C10_synthetic_counter :
    (∀ fs : List String, (initWalkState fs).partNb = 1) ∧
    (∀ (cfg : Config) (mailDate : PyDate) (isFlagged : Bool) (now : String)
        (st : WalkState) (part : Part) (st' : WalkState),
      processPart cfg mailDate isFlagged now st part = .ok st' →
      st'.partNb = if reachesAttachmentDecision st part = true then st.partNb + 1
        else st.partNb) ∧
    (∀ (cfg : Config) (mailDate : PyDate) (isFlagged : Bool) (now : String)
        (st : WalkState) (part : Part) (content : List Nat),
      strStartsWith part.contentType "multipart/" = false →
      part.contentType ≠ "text/plain" → part.contentType ≠ "text/html" →
      isAttachmentDisposition part = true →
      part.filename = none →
      strContains (getHeaderD part.headers "X-Mozilla-Altered" "")
        "AttachmentDetached" = false →
      decodeAttachmentContent part = .ok content →
      ¬ content.length < cfg.maxSize →
      cfg.thunderbirdMode = false →
      cfg.dryRun = false →
      processPart cfg mailDate isFlagged now st part
        = .ok { st with
            partNb := st.partNb + 1
            nbExtraction := st.nbExtraction + 1
            fs := st.fs ++ [findFreeName st.fs (strftimeDate "%Y-%m-%d" mailDate ++ " - "
              ++ ("part." ++ toString (st.partNb + 1)))]
            filesWritten := st.filesWritten ++ [findFreeName st.fs
              (strftimeDate "%Y-%m-%d" mailDate ++ " - "
                ++ ("part." ++ toString (st.partNb + 1)))] }) :=
  ⟨fun _ => rfl, processPart_partNb, processPart_unnamed_extract⟩

/-- Witness for the amended C10: the unnamed fixture attachment, processed
as the first candidate (counter value 1), is extracted to
`2020-01-15 - part.2`. -/
theorem claim_C10_synthetic_counter_witness :
    strStartsWith fixtureUnnamedPart.contentType "multipart/" = false ∧
    isAttachmentDisposition fixtureUnnamedPart = true ∧
    fixtureUnnamedPart.filename = none ∧
    decodeAttachmentContent fixtureUnnamedPart = .ok (List.replicate 200 65) ∧
    ¬ (List.replicate 200 65).length < fixtureCfg.maxSize ∧
    processPart fixtureCfg ⟨2020, 1, 15⟩ false "now" (initWalkState []) fixtureUnnamedPart
      = .ok { initWalkState [] with
          partNb := (initWalkState []).partNb + 1
          nbExtraction := (initWalkState []).nbExtraction + 1
          fs := (initWalkState []).fs ++ [findFreeName (initWalkState []).fs
            (strftimeDate "%Y-%m-%d" ⟨2020, 1, 15⟩ ++ " - "
              ++ ("part." ++ toString ((initWalkState []).partNb + 1)))]
          filesWritten := (initWalkState []).filesWritten ++ [findFreeName (initWalkState []).fs
            (strftimeDate "%Y-%m-%d" ⟨2020, 1, 15⟩ ++ " - "
              ++ ("part." ++ toString ((initWalkState []).partNb + 1)))] } :=
  ⟨by decide, by decide, by decide, by decide, by decide,
    claim_C10_synthetic_counter.2.2 fixtureCfg ⟨2020, 1, 15⟩ false "now" (initWalkState [])
      fixtureUnnamedPart (List.replicate 200 65) (by decide) (by decide) (by decide)
      (by decide) (by decide) (by decide) (by decide) (by decide) rfl rfl⟩

end ImapAex
